import Mathlib

/-!
# reckoning: activity counters over rolling time windows

A shallow embedding of `reckoning/reckoning.go` (package `main` of
jackfrancis/goutils) and of the part of Go's `time` package it calls.

* `GoTime` models `time.Time`, `time.Date`, `Time.Date`, `Time.Clock`,
  `Time.AddDate`, `Time.After`, `Time.Format(time.RFC3339)` and
  `time.Parse(time.RFC3339, _)`.  A `Location` is a fixed offset from UTC
  (no daylight-saving transitions).
* `Reckoning` models the program: the two registries `memoData` and
  `memoStats` are the fields of an explicit `State`; Go maps are association
  lists read with `mapGet` and written with `mapSet`; every `time.Now()` of one
  operation reads the same `Clock`.
* `Osutils` models `osutils/getenv.go`; the process environment is an argument.
* `TzLocation` is a location with daylight-saving transitions, as `time.Local`
  of a server may be. The inner loop of `calcStats` is embedded over it as
  `countTimesIn`; for a location without transitions it is the inner loop
  `countTimes` of the fixed-offset model (`countTimesIn_fixed`).
-/

set_option linter.unusedVariables false

namespace GoTime

/-- A time zone, as a fixed offset in seconds east of UTC: a location without
transitions. Locations with transitions are `TzLocation`. -/
structure Location where
  offset : Int
deriving DecidableEq

/-- The location `time.UTC`. -/
def UTC : Location := ⟨0⟩

/-- An instant `time.Time`: nanoseconds elapsed since January 1, year 1,
00:00:00 UTC (the zero of Go's internal representation) and the location in
which the instant is displayed. -/
structure Time where
  nanos : Int
  loc : Location
deriving DecidableEq

/-- The zero value `time.Time{}`: January 1, year 1, 00:00:00 UTC. It is what
`time.Parse` returns together with an error. -/
def Time.zero : Time := ⟨0, UTC⟩

/-- Seconds from January 1, year 1 to January 1, 1970 (Go's `unixToInternal`). -/
def unixToInternal : Int := 62135596800

/-- A reading of the system clock: nanoseconds elapsed since the Unix epoch
(the system clock counts from 1970-01-01T00:00:00Z and cannot be set before
it) and the local time zone. -/
structure Clock where
  unixNano : Nat
  zone : Location
deriving DecidableEq

/-- The instant `time.Now()` for a clock reading. -/
def Now (clk : Clock) : Time :=
  ⟨unixToInternal * 1000000000 + clk.unixNano, clk.zone⟩

/-- Go's `isLeap`. -/
def isLeap (year : Int) : Bool :=
  year % 4 == 0 && (year % 100 != 0 || year % 400 == 0)

/-- Go's table `daysBefore`: `daysBefore m` is the number of days in a
non-leap year before month `m + 1`. -/
def daysBefore (m : Int) : Int :=
  if m ≤ 0 then 0 else if m = 1 then 31 else if m = 2 then 59 else if m = 3 then 90
  else if m = 4 then 120 else if m = 5 then 151 else if m = 6 then 181
  else if m = 7 then 212 else if m = 8 then 243 else if m = 9 then 273
  else if m = 10 then 304 else if m = 11 then 334 else 365

/-- Go's `norm`: `(nhi, nlo)` with `hi * base + lo = nhi * base + nlo` and
`0 ≤ nlo < base`. -/
def norm (hi lo base : Int) : Int × Int := (hi + lo / base, lo % base)

/-- Go's `daysSinceEpoch`, with January 1 of year 1 as day 0: the number of
days before January 1 of `year`. -/
def daysSinceEpoch (year : Int) : Int :=
  let y := year - 1
  let n := y / 400
  let y := y - 400 * n
  let d := 146097 * n
  let n := y / 100
  let y := y - 100 * n
  let d := d + 36524 * n
  let n := y / 4
  let y := y - 4 * n
  let d := d + 1461 * n
  let n := y
  d + 365 * n

/-- First half of Go's `absDate`: the year and the zero-based day of the year
of day number `d`, by 400-, 100-, 4- and 1-year cycles. -/
def absYear (d : Int) : Int × Int :=
  let n := d / 146097
  let y := 400 * n
  let d := d - 146097 * n
  let n := d / 36524
  let n := n - n / 4
  let y := y + 100 * n
  let d := d - 36524 * n
  let n := d / 1461
  let y := y + 4 * n
  let d := d - 1461 * n
  let n := d / 365
  let n := n - n / 4
  let y := y + n
  let d := d - 365 * n
  (y + 1, d)

/-- Month estimate of Go's `absDate`: month and day of month of the zero-based
day `day` of a non-leap year, assuming first that every month has 31 days. -/
def monthEstimate (day : Int) : Int × Int :=
  let month := day / 31
  let e := daysBefore (month + 1)
  if day ≥ e then (month + 2, day - e + 1)
  else (month + 1, day - daysBefore month + 1)

/-- Second half of Go's `absDate`: month and day of month of the zero-based
day `yday` of a year, leap or not. -/
def monthDay (leap : Bool) (yday : Int) : Int × Int :=
  if leap && yday == 59 then (2, 29)
  else monthEstimate (if leap && yday > 59 then yday - 1 else yday)

/-- Go's `absDate`: year, month and day of the second `abs` counted from
January 1, year 1, 00:00:00. -/
def absDate (abs : Int) : Int × Int × Int :=
  let yd := absYear (abs / 86400)
  (yd.1, monthDay (isLeap yd.1) yd.2)

/-- Go's `absClock`: hour, minute and second within the day of the second `abs`. -/
def absClock (abs : Int) : Int × Int × Int :=
  let sec := abs % 86400
  let hour := sec / 3600
  let sec := sec - hour * 3600
  let min := sec / 60
  let sec := sec - min * 60
  (hour, min, sec)

/-- Go's `Time.abs`: the seconds since January 1, year 1, shifted to the
time zone of `t`. -/
def Time.abs (t : Time) : Int := t.nanos / 1000000000 + t.loc.offset

/-- Nanoseconds within the second, `Time.Nanosecond`. -/
def Time.nsec (t : Time) : Int := t.nanos % 1000000000

/-- The method `Time.Date`: year, month, day in the location of `t`. -/
def Time.Date (t : Time) : Int × Int × Int := absDate t.abs

/-- The method `Time.Clock`: hour, minute, second in the location of `t`. -/
def Time.Clock (t : Time) : Int × Int × Int := absClock t.abs

/-- The method `Time.Location`. -/
def Time.Location (t : Time) : Location := t.loc

/-- The method `Time.After`: `t` is an instant strictly later than `u`. -/
def Time.After (t u : Time) : Bool := decide (t.nanos > u.nanos)

/-- The function `time.Date`: the instant of the given wall time in `loc`.
The month overflows into the year; nanoseconds, seconds, minutes and hours
overflow into the day; a day outside the month is counted on from the first of
the month. -/
def Date (year month day hour min sec nsec : Int) (loc : Location) : Time :=
  let ym := norm year (month - 1) 12
  let year := ym.1
  let month := ym.2 + 1
  let sn := norm sec nsec 1000000000
  let ms := norm min sn.1 60
  let hm := norm hour ms.1 60
  let dh := norm day hm.1 24
  let d := daysSinceEpoch year + daysBefore (month - 1)
  let d := if isLeap year && month ≥ 3 then d + 1 else d
  let d := d + (dh.1 - 1)
  let abs := d * 86400 + (dh.2 * 3600 + hm.2 * 60 + ms.2)
  let unix := abs - loc.offset
  ⟨unix * 1000000000 + sn.2, loc⟩

/-- The method `Time.AddDate`. -/
def Time.AddDate (t : Time) (years months days : Int) : Time :=
  let ymd := t.Date
  let hms := t.Clock
  GoTime.Date (ymd.1 + years) (ymd.2.1 + months) (ymd.2.2 + days)
    hms.1 hms.2.1 hms.2.2 t.nsec t.Location

/-- The day number that `time.Date` computes for a year, a month in 1..12 and
a day of month (which may lie outside the month): days from January 1, year 1. -/
def civilDays (year month day : Int) : Int :=
  daysSinceEpoch year + daysBefore (month - 1) +
    (if isLeap year && month ≥ 3 then 1 else 0) + (day - 1)

/-- Go's `appendInt`: the decimal digits of `x`, padded with zeros on the left
to `width` digits, after a minus sign when `x` is negative. -/
def appendInt (x : Int) (width : Nat) : List Char :=
  let ds := Nat.toDigits 10 x.natAbs
  (if x < 0 then ['-'] else []) ++ List.replicate (width - ds.length) '0' ++ ds

/-- The zone element `Z07:00` of the layout, formatted: `Z` for offset zero,
otherwise sign, hours, colon, minutes. -/
def formatZone (offset : Int) : List Char :=
  if offset = 0 then ['Z']
  else
    let zone := Int.tdiv offset 60
    let sign := if zone < 0 then '-' else '+'
    let zone := if zone < 0 then -zone else zone
    sign :: (appendInt (zone / 60) 2 ++ ':' :: appendInt (zone % 60) 2)

/-- The call `t.Format(time.RFC3339)`, layout `2006-01-02T15:04:05Z07:00`. -/
def Time.FormatRFC3339 (t : Time) : String :=
  let ymd := t.Date
  let hms := t.Clock
  String.mk (appendInt ymd.1 4 ++ '-' :: appendInt ymd.2.1 2 ++ '-' :: appendInt ymd.2.2 2 ++
    'T' :: appendInt hms.1 2 ++ ':' :: appendInt hms.2.1 2 ++ ':' :: appendInt hms.2.2 2 ++
    formatZone t.loc.offset)

/-- Go's `isDigit`. -/
def isDigit (c : Char) : Bool := decide ('0' ≤ c) && decide (c ≤ '9')

/-- The value of a decimal digit. -/
def digitVal (c : Char) : Int := (c.toNat : Int) - 48

/-- Go's `getnum`: a number of one or two digits at the head of `s`, of exactly
two digits when `fixed`. -/
def getnum (s : List Char) (fixed : Bool) : Option (Int × List Char) :=
  match s with
  | [] => none
  | c0 :: rest =>
    if !isDigit c0 then none
    else match rest with
      | [] => if fixed then none else some (digitVal c0, [])
      | c1 :: rest1 =>
        if isDigit c1 then some (digitVal c0 * 10 + digitVal c1, rest1)
        else if fixed then none else some (digitVal c0, rest)

/-- A literal character of the layout at the head of the value. -/
def skip (c : Char) (s : List Char) : Option (List Char) :=
  match s with
  | [] => none
  | x :: rest => if x = c then some rest else none

/-- The layout element `2006`: a year of exactly four digits. -/
def getYear (s : List Char) : Option (Int × List Char) :=
  match s with
  | a :: b :: c :: d :: rest =>
    if isDigit a && isDigit b && isDigit c && isDigit d then
      some (((digitVal a * 10 + digitVal b) * 10 + digitVal c) * 10 + digitVal d, rest)
    else none
  | _ => none

/-- The number written by a list of digits. -/
def atoiDigits (ds : List Char) : Int :=
  ds.foldl (fun acc c => acc * 10 + digitVal c) 0

/-- A fractional second after the seconds, which `time.Parse` accepts although
the layout has none: a period or comma and digits, of which nine count. -/
def getFraction (s : List Char) : Int × List Char :=
  match s with
  | p :: d :: rest =>
    if (p = '.' || p = ',') && isDigit d then
      let ds := ((d :: rest).takeWhile isDigit).take 9
      (atoiDigits ds * 10 ^ (9 - ds.length), (d :: rest).dropWhile isDigit)
    else (0, s)
  | _ => (0, s)

/-- The layout element `Z07:00`: `Z`, or a sign, two digits of hours, a colon
and two digits of minutes. -/
def getZone (s : List Char) : Option (Location × List Char) :=
  match s with
  | [] => none
  | sign :: rest =>
    if sign = 'Z' then some (UTC, rest)
    else match rest with
      | h1 :: h2 :: c :: m1 :: m2 :: rest1 =>
        if c ≠ ':' then none
        else match getnum [h1, h2] true, getnum [m1, m2] true with
          | some (hr, _), some (mm, _) =>
            if hr > 24 || mm > 60 then none
            else if sign = '+' then some (⟨(hr * 60 + mm) * 60⟩, rest1)
            else if sign = '-' then some (⟨-((hr * 60 + mm) * 60)⟩, rest1)
            else none
          | _, _ => none
      | _ => none

/-- Go's `daysIn`: the number of days of a month. -/
def daysIn (month year : Int) : Int :=
  if month = 2 && isLeap year then 29 else daysBefore month - daysBefore (month - 1)

/-- The layout elements `2006-01-02`: year, month and day, the month in
1..12 (the day is checked against its month at the end). -/
def getDate (value : List Char) : Option ((Int × Int × Int) × List Char) :=
  match getYear value with
  | none => none
  | some (year, value) =>
    match skip '-' value with
    | none => none
    | some value =>
      match getnum value true with
      | none => none
      | some (month, value) =>
        if month ≤ 0 || 12 < month then none
        else match skip '-' value with
          | none => none
          | some value =>
            match getnum value true with
            | none => none
            | some (day, value) => some ((year, month, day), value)

/-- The layout elements `15:04:05`: hour (one or two digits), minute and
second, each in its range. -/
def getClock (value : List Char) : Option ((Int × Int × Int) × List Char) :=
  match getnum value false with
  | none => none
  | some (hour, value) =>
    if 24 ≤ hour then none
    else match skip ':' value with
      | none => none
      | some value =>
        match getnum value true with
        | none => none
        | some (min, value) =>
          if 60 ≤ min then none
          else match skip ':' value with
            | none => none
            | some value =>
              match getnum value true with
              | none => none
              | some (sec, value) =>
                if 60 ≤ sec then none else some ((hour, min, sec), value)

/-- The successful results of `time.Parse(time.RFC3339, value)`: the layout
elements in order, nothing left over, the day within its month; the wall time
read in UTC and moved by the zone offset. -/
def parseRFC3339 (value : List Char) : Option Time :=
  match getDate value with
  | none => none
  | some (ymd, value) =>
    match skip 'T' value with
    | none => none
    | some value =>
      match getClock value with
      | none => none
      | some (hms, value) =>
        match getZone (getFraction value).2 with
        | none => none
        | some (z, rest) =>
          if rest ≠ [] then none
          else if ymd.2.2 < 1 || ymd.2.2 > daysIn ymd.2.1 ymd.1 then none
          else
            let t := GoTime.Date ymd.1 ymd.2.1 ymd.2.2 hms.1 hms.2.1 hms.2.2
              (getFraction value).1 UTC
            some ⟨t.nanos - z.offset * 1000000000, z⟩

/-- The call `time.Parse(time.RFC3339, value)`: the time and whether an error
is returned; with an error the time is the zero `Time`. The location of the
time is the fixed zone of the written offset, which is also what `time.Parse`
attaches when `time.Local` has no transitions; `ParseIn` covers a `time.Local`
with transitions. -/
def Parse (value : String) : Time × Bool :=
  match parseRFC3339 value.data with
  | some t => (t, false)
  | none => (Time.zero, true)

/-- Go's `alpha`: the start of the first period of a location. -/
def zoneAlpha : Int := -9223372036854775808

/-- Go's `omega`: the end of the last period of a location. -/
def zoneOmega : Int := 9223372036854775807

/-- A location with its table of transitions, as `time.Local` is loaded from
the zone database: the offset in force before the first transition, and for
every transition, in ascending order, the Unix second at which it happens and
the offset in force from then on. A location without transitions is a fixed
zone. -/
structure TzLocation where
  first : Int
  tx : List (Int × Int)
deriving DecidableEq

/-- The search of `Location.lookup` through the transitions that remain, with
the offset of the period reached so far and its start. -/
def lookupFrom (offset start : Int) : List (Int × Int) → Int → Int × Int × Int
  | [], _ => (offset, start, zoneOmega)
  | tr :: rest, sec =>
    if sec < tr.1 then (offset, start, tr.1) else lookupFrom tr.2 tr.1 rest sec

/-- Go's `Location.lookup`: for a Unix second, the offset in force and the
start and end of the period in which it is in force. -/
def TzLocation.lookup (l : TzLocation) (sec : Int) : Int × Int × Int :=
  lookupFrom l.first zoneAlpha l.tx sec

/-- An instant `time.Time` whose location may have transitions. -/
structure TzTime where
  nanos : Int
  loc : TzLocation
deriving DecidableEq

/-- Go's `Time.unixSec`. -/
def TzTime.unixSec (t : TzTime) : Int := t.nanos / 1000000000 - unixToInternal

/-- Go's `Time.abs`: the seconds since January 1, year 1, shifted by the
offset in force in the location of `t` at the instant `t`. -/
def TzTime.abs (t : TzTime) : Int :=
  t.nanos / 1000000000 + (t.loc.lookup t.unixSec).1

/-- Nanoseconds within the second. -/
def TzTime.nsec (t : TzTime) : Int := t.nanos % 1000000000

/-- The method `Time.Date` in a location with transitions. -/
def TzTime.Date (t : TzTime) : Int × Int × Int := absDate t.abs

/-- The method `Time.Clock` in a location with transitions. -/
def TzTime.Clock (t : TzTime) : Int × Int × Int := absClock t.abs

/-- The method `Time.After`. -/
def TzTime.After (t u : TzTime) : Bool := decide (t.nanos > u.nanos)

/-- The function `time.Date` for a location with transitions. The wall time is
first read as UTC; the offset in force at that second is looked up, and when
the second so corrected falls outside the period found, the offset is looked
up again at the corrected second. -/
def DateIn (year month day hour min sec nsec : Int) (loc : TzLocation) : TzTime :=
  let wall := GoTime.Date year month day hour min sec nsec UTC
  let unix := wall.nanos / 1000000000 - unixToInternal
  let r := loc.lookup unix
  let offset :=
    if r.1 ≠ 0 then
      if unix - r.1 < r.2.1 || unix - r.1 ≥ r.2.2 then (loc.lookup (unix - r.1)).1 else r.1
    else r.1
  ⟨wall.nanos - offset * 1000000000, loc⟩

/-- The method `Time.AddDate` in a location with transitions. -/
def TzTime.AddDate (t : TzTime) (years months days : Int) : TzTime :=
  let ymd := t.Date
  let hms := t.Clock
  DateIn (ymd.1 + years) (ymd.2.1 + months) (ymd.2.2 + days)
    hms.1 hms.2.1 hms.2.2 t.nsec t.loc

/-- The call `time.Parse(time.RFC3339, value)` when `time.Local` is `localLoc`.
The instant is that of `Parse`. A value written with a numeric offset gets the
location `localLoc` when `localLoc` has that offset in force at the instant;
otherwise, and for a value written with `Z`, it gets the fixed zone that
`Parse` gives it (UTC for `Z`). A value that parses ends with its zone, so it
was written with `Z` exactly when its last character is `Z`. -/
def ParseIn (localLoc : TzLocation) (value : String) : TzTime × Bool :=
  let r := Parse value
  if r.2 then (⟨0, ⟨0, []⟩⟩, true)
  else if value.data.getLast? ≠ some 'Z' ∧
      (localLoc.lookup (r.1.nanos / 1000000000 - unixToInternal)).1 = r.1.loc.offset then
    (⟨r.1.nanos, localLoc⟩, false)
  else (⟨r.1.nanos, ⟨r.1.loc.offset, []⟩⟩, false)

/-- A time of the fixed-offset model as a time whose location has no
transitions. -/
def Time.toTz (t : Time) : TzTime := ⟨t.nanos, ⟨t.loc.offset, []⟩⟩

/-- The instant `time.Now()` when `time.Local` is `localLoc` and the system clock
reads `unixNano` nanoseconds since the Unix epoch. -/
def NowIn (unixNano : Nat) (localLoc : TzLocation) : TzTime :=
  ⟨unixToInternal * 1000000000 + unixNano, localLoc⟩

end GoTime

namespace Reckoning

open GoTime

/-- A read `m[k]` of a Go map with string keys: the value stored under `k`,
`none` when `k` is not a key. -/
def mapGet {β : Type} (m : List (String × β)) (k : String) : Option β :=
  match m with
  | [] => none
  | (k1, v) :: rest => if k1 = k then some v else mapGet rest k

/-- A write `m[k] = v` of a Go map with string keys: the value under `k` is
replaced, or the key is added. -/
def mapSet {β : Type} (m : List (String × β)) (k : String) (v : β) : List (String × β) :=
  match m with
  | [] => [(k, v)]
  | (k1, v1) :: rest => if k1 = k then (k, v) :: rest else (k1, v1) :: mapSet rest k v

/-- The keys of a Go map. -/
def mapKeys {β : Type} (m : List (String × β)) : List String := m.map Prod.fst

/-- The constant `listenPort`. -/
def listenPort : String := "8000"

/-- The struct `Thing`: a name and, for every activity kind, the recorded
timestamps in the order of recording. -/
structure Thing where
  Name : String
  Activities : List (String × List String)
deriving DecidableEq

/-- The method `Thing.addActions`: for each action of the input, in order, the
current time formatted as RFC3339 is appended to the list of that action (a
missing list reads as empty). The map of the Go value is shared with the
caller, so the updated `Thing` is returned. -/
def Thing.addActions (t : Thing) (activities : List String) (clk : Clock) : Thing :=
  activities.foldl (fun (t : Thing) action =>
    Thing.mk t.Name (mapSet t.Activities action
      ((mapGet t.Activities action).getD [] ++ [(Now clk).FormatRFC3339]))) t

/-- The struct `TimeStats`. The counters are `uint64` in Go; each counts
elements of one slice, whose length is below `2 ^ 63`, so no increment wraps. -/
structure TimeStats where
  Today : Nat
  Week : Nat
  Month : Nat
  Year : Nat
deriving DecidableEq

/-- The struct `Stats`. -/
structure Stats where
  Name : String
  Activities : List (String × TimeStats)
deriving DecidableEq

/-- The struct `jsonThing`, the decoded body of a POST request. -/
structure jsonThing where
  Activities : List String
deriving DecidableEq

/-- The package-level variables `memoData` and `memoStats`. -/
structure State where
  memoData : List (String × Thing)
  memoStats : List (String × Stats)
deriving DecidableEq

/-- The state at program start: both maps freshly made. -/
def State.init : State := ⟨[], []⟩

/-- The function `getData`. -/
def getData (s : State) : List (String × Thing) × State := (s.memoData, s)

/-- The function `newThing`. -/
def newThing (name : String) : Thing := { Name := name, Activities := [] }

/-- The function `getThing`: the stored thing and `true`, or a new thing (not
stored) and `false`. The state is returned as the call leaves it. -/
def getThing (name : String) (s : State) : (Thing × Bool) × State :=
  match mapGet s.memoData name with
  | none => ((newThing name, false), s)
  | some thing => ((thing, true), s)

/-- The function `getAllStats`. -/
def getAllStats (s : State) : List (String × Stats) × State := (s.memoStats, s)

/-- The function `newStats`. -/
def newStats (name : String) : Stats := { Name := name, Activities := [] }

/-- The function `getStats`: the stored stats and `true`, or new stats (not
stored) and `false`. The state is returned as the call leaves it. -/
def getStats (name : String) (s : State) : (Stats × Bool) × State :=
  match mapGet s.memoStats name with
  | none => ((newStats name, false), s)
  | some stats => ((stats, true), s)

/-- The function `isToday`: `t` is after midnight of the day of `t`, in the
location of `t`. -/
def isToday (t : Time) : Bool :=
  let tz := t.Location
  let ymd := t.Date
  let today := GoTime.Date ymd.1 ymd.2.1 ymd.2.2 0 0 0 0 tz
  t.After today

/-- The function `isThisWeek`. -/
def isThisWeek (t : Time) (clk : Clock) : Bool :=
  let oneWeekAgo := (Now clk).AddDate 0 0 (-7)
  t.After oneWeekAgo

/-- The function `isThisMonth`. -/
def isThisMonth (t : Time) (clk : Clock) : Bool :=
  let oneMonthAgo := (Now clk).AddDate 0 (-1) 0
  t.After oneMonthAgo

/-- The function `isThisYear`. -/
def isThisYear (t : Time) (clk : Clock) : Bool :=
  let oneYearAgo := (Now clk).AddDate (-1) 0 0
  t.After oneYearAgo

/-- The body of the inner loop of `calcStats` for one stored timestamp: the
string is parsed (an error is only logged, the loop body goes on with the time
that `time.Parse` returned) and each of the four counters is incremented when
its test holds. -/
def countStep (clk : Clock) (acc : TimeStats) (t : String) : TimeStats :=
  let timestamp := (Parse t).1
  { Today := if isToday timestamp then acc.Today + 1 else acc.Today
    Week := if isThisWeek timestamp clk then acc.Week + 1 else acc.Week
    Month := if isThisMonth timestamp clk then acc.Month + 1 else acc.Month
    Year := if isThisYear timestamp clk then acc.Year + 1 else acc.Year }

/-- The inner loop of `calcStats`: the four counters of one list of
timestamps, from zero. -/
def countTimes (times : List String) (clk : Clock) : TimeStats :=
  times.foldl (countStep clk) { Today := 0, Week := 0, Month := 0, Year := 0 }

/-- The function `calcStats`: the stats of the name of `thing` are fetched (or
made), the counters of every activity kind of `thing` are computed and written
over the entry of that kind, and the stats are stored under the name. -/
def calcStats (thing : Thing) (clk : Clock) (s : State) : State :=
  let stats := (getStats thing.Name s).1.1
  let stats := thing.Activities.foldl (fun (stats : Stats) (kv : String × List String) =>
    Stats.mk stats.Name (mapSet stats.Activities kv.1 (countTimes kv.2 clk))) stats
  State.mk s.memoData (mapSet s.memoStats thing.Name stats)

/-- What a handler writes as the body of its response. JSON encoding of the
program's own values cannot fail and is left implicit. -/
inductive Body where
  | empty : Body
  | text : String → Body
  | stats : Stats → Body
  | allStats : List (String × Stats) → Body
deriving DecidableEq

/-- The response of a handler: status code and body. -/
structure Response where
  status : Nat
  body : Body
deriving DecidableEq

/-- A POST request on `/{thing}`: the `Content-Type` header, the route variable
and the result of decoding the body as JSON into a `jsonThing` (`none` when
the decoder returns an error). -/
structure PostRequest where
  contentType : String
  thing : String
  body : Option jsonThing
deriving DecidableEq

/-- The write sequence of `thingPostHandler` for a decoded request:
`getThing`, `addActions`, the store into `memoData`, and the deferred
`calcStats(thing)`, which runs when the handler returns. -/
def ingest (name : String) (activities : List String) (clk : Clock) (s : State) : State :=
  let thing := (getThing name s).1.1
  let thing := thing.addActions activities clk
  let s := State.mk (mapSet s.memoData name thing) s.memoStats
  calcStats thing clk s

/-- The handler `thingPostHandler`: status 415 for another content type; for a
body that does not decode the error is logged and the handler returns without
writing a status (the server then answers 200); otherwise the write sequence
runs and the handler returns (200). -/
def thingPostHandler (r : PostRequest) (clk : Clock) (s : State) : Response × State :=
  if r.contentType ≠ "application/json" then
    ({ status := 415, body := Body.text "expected application/json" }, s)
  else
    match r.body with
    | none => ({ status := 200, body := Body.empty }, s)
    | some jsonData => ({ status := 200, body := Body.empty }, ingest r.thing jsonData.Activities clk s)

/-- The handler `thingGetHandler`: 404 when `getStats` finds nothing, otherwise
the stats as JSON. -/
def thingGetHandler (name : String) (s : State) : Response × State :=
  let r := getStats name s
  if !r.1.2 then ({ status := 404, body := Body.text "404 page not found" }, r.2)
  else ({ status := 200, body := Body.stats r.1.1 }, r.2)

/-- The handler `defaultHandler`: all stats as JSON. -/
def defaultHandler (s : State) : Response × State :=
  let r := getAllStats s
  ({ status := 200, body := Body.allStats r.1 }, r.2)

/-- The states the server can be in: from the start state by any sequence of
POST requests, each handled at some reading of the clock. -/
inductive Reachable : State → Prop where
  | init : Reachable State.init
  | post (s : State) (r : PostRequest) (clk : Clock) :
      Reachable s → Reachable (thingPostHandler r clk s).2

/-- The invariant of the two registries: every stored thing and every stored
stats carries the name it is stored under, no stored list of timestamps is
empty, and the stats of a name have a thing of that name with every activity
kind of the stats. -/
def Inv (s : State) : Prop :=
  (∀ n th, mapGet s.memoData n = some th →
    th.Name = n ∧ ∀ k l, mapGet th.Activities k = some l → l ≠ []) ∧
  (∀ n st, mapGet s.memoStats n = some st →
    st.Name = n ∧ ∃ th, mapGet s.memoData n = some th ∧
      ∀ k v, mapGet st.Activities k = some v → ∃ l, mapGet th.Activities k = some l)

/-- The counters that `calcStats` stores for the activity kind `k`: the entry
of `k` in the stats found under the name of the thing after the call. -/
def storedCounters (thing : Thing) (clk : Clock) (s : State) (k : String) : Option TimeStats :=
  (mapGet (calcStats thing clk s).memoStats thing.Name).bind fun st => mapGet st.Activities k

/-- The time of day of `t`, in its own location, is exactly 00:00:00. -/
def atMidnight (t : Time) : Bool :=
  t.Clock.1 == 0 && t.Clock.2.1 == 0 && t.Clock.2.2 == 0 && t.nsec == 0

/-- The steps of `thingPostHandler` after the request is decoded. -/
inductive Op where
  | lock : Op
  | getThing : Op
  | deferCalcStats : Op
  | addActions : Op
  | storeThing : Op
  | unlock : Op
  | calcStats : Op
deriving DecidableEq

/-- What a run of the handler works on: the registries, the local variable
`thing`, whether the mutex `mu` is held, and whether a call of `calcStats` is
deferred. -/
structure Frame where
  s : State
  thing : Thing
  held : Bool
  deferred : Bool
deriving DecidableEq

/-- One step of `thingPostHandler`. The argument of the deferred call is the
value of `thing` at the `defer` statement; it keeps the name and shares the
map `Activities` with the local variable, so when the call runs it sees the
thing as `addActions` has left it. -/
def step (name : String) (activities : List String) (clk : Clock) (f : Frame) : Op → Frame
  | Op.lock => Frame.mk f.s f.thing true f.deferred
  | Op.getThing => Frame.mk (getThing name f.s).2 (getThing name f.s).1.1 f.held f.deferred
  | Op.deferCalcStats => Frame.mk f.s f.thing f.held true
  | Op.addActions => Frame.mk f.s (f.thing.addActions activities clk) f.held f.deferred
  | Op.storeThing =>
    Frame.mk (State.mk (mapSet f.s.memoData name f.thing) f.s.memoStats) f.thing f.held f.deferred
  | Op.unlock => Frame.mk f.s f.thing false f.deferred
  | Op.calcStats => Frame.mk (calcStats f.thing clk f.s) f.thing f.held false

/-- The steps of `thingPostHandler` in the order in which they run: the
statements of the body from `mu.Lock()` to `mu.Unlock()`, then, as the
function returns, the deferred call. -/
def postOps : List Op :=
  [Op.lock, Op.getThing, Op.deferCalcStats, Op.addActions, Op.storeThing, Op.unlock,
    Op.calcStats]

/-- A run of a list of steps: the frame at the end and, for every step in
order, whether the mutex was held when the step ran. -/
def runOps (name : String) (activities : List String) (clk : Clock) :
    List Op → Frame → Frame × List (Op × Bool)
  | [], f => (f, [])
  | op :: ops, f =>
    let r := runOps name activities clk ops (step name activities clk f op)
    (r.1, (op, f.held) :: r.2)

/-- The run of `thingPostHandler` on a decoded request, from the state `s`
with the mutex free. The local `thing` starts as the zero value. -/
def runPost (name : String) (activities : List String) (clk : Clock) (s : State) :
    Frame × List (Op × Bool) :=
  runOps name activities clk postOps (Frame.mk s (Thing.mk "" []) false false)

/-- The function `isToday` on a time whose location may have transitions. -/
def isTodayIn (t : TzTime) : Bool :=
  let tz := t.loc
  let ymd := t.Date
  let today := DateIn ymd.1 ymd.2.1 ymd.2.2 0 0 0 0 tz
  t.After today

/-- The time of day of `t`, in its own location, is exactly 00:00:00. -/
def atMidnightIn (t : TzTime) : Bool :=
  t.Clock.1 == 0 && t.Clock.2.1 == 0 && t.Clock.2.2 == 0 && t.nsec == 0

/-- The function `isThisWeek` when `time.Local` is `localLoc`. -/
def isThisWeekIn (t : TzTime) (unixNano : Nat) (localLoc : TzLocation) : Bool :=
  let oneWeekAgo := (NowIn unixNano localLoc).AddDate 0 0 (-7)
  t.After oneWeekAgo

/-- The function `isThisMonth` when `time.Local` is `localLoc`. -/
def isThisMonthIn (t : TzTime) (unixNano : Nat) (localLoc : TzLocation) : Bool :=
  let oneMonthAgo := (NowIn unixNano localLoc).AddDate 0 (-1) 0
  t.After oneMonthAgo

/-- The function `isThisYear` when `time.Local` is `localLoc`. -/
def isThisYearIn (t : TzTime) (unixNano : Nat) (localLoc : TzLocation) : Bool :=
  let oneYearAgo := (NowIn unixNano localLoc).AddDate (-1) 0 0
  t.After oneYearAgo

/-- The body of the inner loop of `calcStats` when `time.Local` is `localLoc`. -/
def countStepIn (localLoc : TzLocation) (unixNano : Nat) (acc : TimeStats) (t : String) :
    TimeStats :=
  let timestamp := (ParseIn localLoc t).1
  { Today := if isTodayIn timestamp then acc.Today + 1 else acc.Today
    Week := if isThisWeekIn timestamp unixNano localLoc then acc.Week + 1 else acc.Week
    Month := if isThisMonthIn timestamp unixNano localLoc then acc.Month + 1 else acc.Month
    Year := if isThisYearIn timestamp unixNano localLoc then acc.Year + 1 else acc.Year }

/-- The inner loop of `calcStats` when `time.Local` is `localLoc`. -/
def countTimesIn (localLoc : TzLocation) (times : List String) (unixNano : Nat) : TimeStats :=
  times.foldl (countStepIn localLoc unixNano) { Today := 0, Week := 0, Month := 0, Year := 0 }

end Reckoning

namespace Osutils

/-- The call `os.Getenv(key)` in the environment `env`, which gives the value
of every variable that is set: the value, or the empty string when the
variable is not set. -/
def osGetenv (env : String → Option String) (key : String) : String :=
  (env key).getD ""

/-- The function `Getenv` of package `osutils`. -/
def Getenv (env : String → Option String) (envVar : String) (defaultVal : String) : String :=
  let val := osGetenv env envVar
  if val.utf8ByteSize = 0 then defaultVal else val

end Osutils

/-! ## Calendar arithmetic of the time model -/

namespace GoTime

theorem isLeap_iff (y : Int) : isLeap y = true ↔ (y % 4 = 0 ∧ (y % 100 ≠ 0 ∨ y % 400 = 0)) := by
  simp [isLeap]

theorem absYear_spec (d : Int) :
    daysSinceEpoch (absYear d).1 + (absYear d).2 = d ∧ 0 ≤ (absYear d).2 ∧
      (absYear d).2 ≤ 365 ∧ (isLeap (absYear d).1 = false → (absYear d).2 ≤ 364) := by
  rw [Bool.eq_false_iff, Ne, isLeap_iff]
  simp only [daysSinceEpoch, absYear]
  generalize hN : d / 146097 = N
  generalize hc : (d - 146097 * N) / 36524 = c
  have hc4 : c = 0 ∨ c = 1 ∨ c = 2 ∨ c = 3 ∨ c = 4 := by omega
  generalize hc' : c - c / 4 = c'
  have hc'4 : c' = 0 ∨ c' = 1 ∨ c' = 2 ∨ c' = 3 := by omega
  generalize hq : (d - 146097 * N - 36524 * c') / 1461 = q
  have hqb : 0 ≤ q ∧ q ≤ 24 := by omega
  generalize hk : (d - 146097 * N - 36524 * c' - 1461 * q) / 365 = k
  generalize hk' : k - k / 4 = k'
  have hk'4 : k' = 0 ∨ k' = 1 ∨ k' = 2 ∨ k' = 3 := by omega
  have e1 : (400 * N + 100 * c' + 4 * q + k' + 1 - 1) / 400 = N := by omega
  rw [e1]
  have e2 : (400 * N + 100 * c' + 4 * q + k' + 1 - 1 - 400 * N) / 100 = c' := by omega
  rw [e2]
  have e3 : (400 * N + 100 * c' + 4 * q + k' + 1 - 1 - 400 * N - 100 * c') / 4 = q := by omega
  rw [e3]
  refine ⟨by omega, by omega, by omega, ?_⟩
  intro hl
  omega

theorem daysBefore_table :
    daysBefore 0 = 0 ∧
    daysBefore 1 = 31 ∧
    daysBefore 2 = 59 ∧
    daysBefore 3 = 90 ∧
    daysBefore 4 = 120 ∧
    daysBefore 5 = 151 ∧
    daysBefore 6 = 181 ∧
    daysBefore 7 = 212 ∧
    daysBefore 8 = 243 ∧
    daysBefore 9 = 273 ∧
    daysBefore 10 = 304 ∧
    daysBefore 11 = 334 ∧
    daysBefore 12 = 365 := by
  decide

theorem monthEstimate_spec (d : Int) (h0 : 0 ≤ d) (h1 : d ≤ 364) :
    1 ≤ (monthEstimate d).1 ∧ (monthEstimate d).1 ≤ 12 ∧ 1 ≤ (monthEstimate d).2 ∧
    (3 ≤ (monthEstimate d).1 ↔ 59 ≤ d) ∧
    daysBefore ((monthEstimate d).1 - 1) + ((monthEstimate d).2 - 1) = d := by
  obtain ⟨t0, t1, t2, t3, t4, t5, t6, t7, t8, t9, t10, t11, t12⟩ := daysBefore_table
  unfold monthEstimate
  simp only
  generalize hm : d / 31 = m
  have hb : 0 ≤ m ∧ m ≤ 11 := by omega
  obtain ⟨hb0, hb1⟩ := hb
  interval_cases m <;>
    simp only [Int.reduceAdd, t0, t1, t2, t3, t4, t5, t6, t7, t8, t9, t10, t11, t12] <;>
    split_ifs <;>
    simp only [Int.reduceAdd, Int.reduceSub, t0, t1, t2, t3, t4, t5, t6, t7, t8, t9, t10, t11, t12] <;>
    omega

theorem monthDay_spec (l : Bool) (d : Int) (h0 : 0 ≤ d) (h1 : d ≤ 365) (h2 : l = false → d ≤ 364) :
    1 ≤ (monthDay l d).1 ∧ (monthDay l d).1 ≤ 12 ∧ 1 ≤ (monthDay l d).2 ∧
      daysBefore ((monthDay l d).1 - 1) + (if l && (monthDay l d).1 ≥ 3 then 1 else 0) +
        ((monthDay l d).2 - 1) = d := by
  unfold monthDay
  cases l
  · have h2 := h2 rfl
    simp only [Bool.false_and, if_false, Bool.false_eq_true]
    obtain ⟨a, b, c, _, e⟩ := monthEstimate_spec d h0 h2
    exact ⟨a, b, c, by omega⟩
  · simp only [Bool.true_and, beq_iff_eq, decide_eq_true_eq]
    by_cases h59 : d = 59
    · subst h59; norm_num [daysBefore]
    · simp only [h59, if_false]
      by_cases hgt : d > 59
      · simp only [hgt, if_true]
        obtain ⟨a, b, c, f, e⟩ := monthEstimate_spec (d - 1) (by omega) (by omega)
        refine ⟨a, b, c, ?_⟩
        rw [if_pos (by omega)]; omega
      · simp only [hgt, if_false]
        obtain ⟨a, b, c, f, e⟩ := monthEstimate_spec d (by omega) (by omega)
        refine ⟨a, b, c, ?_⟩
        rw [if_neg (by omega)]; omega

theorem absDate_spec (abs : Int) :
    1 ≤ (absDate abs).2.1 ∧ (absDate abs).2.1 ≤ 12 ∧ 1 ≤ (absDate abs).2.2 ∧
      civilDays (absDate abs).1 (absDate abs).2.1 (absDate abs).2.2 = abs / 86400 := by
  obtain ⟨h1, h2, h3, h4⟩ := absYear_spec (abs / 86400)
  obtain ⟨a, b, c, e⟩ := monthDay_spec (isLeap (absYear (abs / 86400)).1) _ h2 h3 h4
  unfold absDate civilDays
  refine ⟨a, b, c, ?_⟩
  simp only
  omega

theorem daysSinceEpoch_succ (y : Int) :
    daysSinceEpoch (y + 1) = daysSinceEpoch y + (if isLeap y then 366 else 365) := by
  have hl := isLeap_iff y
  by_cases h : isLeap y = true
  · rw [if_pos h]
    have := hl.1 h
    simp only [daysSinceEpoch]
    omega
  · rw [if_neg h]
    have : ¬ (y % 4 = 0 ∧ (y % 100 ≠ 0 ∨ y % 400 = 0)) := fun c => h (hl.2 c)
    simp only [daysSinceEpoch]
    omega

theorem civilDays_add_day (y m d k : Int) : civilDays y m (d + k) = civilDays y m d + k := by
  unfold civilDays; omega

theorem civilDays_prev_year (y m d : Int) (h1 : 1 ≤ m) (h2 : m ≤ 12) :
    civilDays y m d - 366 ≤ civilDays (y - 1) m d ∧ civilDays (y - 1) m d ≤ civilDays y m d - 365 := by
  have hs := daysSinceEpoch_succ (y - 1)
  rw [sub_add_cancel] at hs
  unfold civilDays
  rw [hs]
  by_cases hm : m ≥ 3
  · have hl := isLeap_iff y
    have hl' := isLeap_iff (y - 1)
    by_cases a : isLeap y = true <;> by_cases b : isLeap (y - 1) = true
    · exfalso; have := hl.1 a; have := hl'.1 b; omega
    · simp only [a, b, hm, Bool.true_and, decide_True, if_true, if_false, Bool.and_true]
      simp; omega
    · simp only [a, b, hm, Bool.true_and, decide_True, if_true, if_false, Bool.and_true]
      simp; omega
    · simp only [a, b, hm, Bool.true_and, decide_True, if_true, if_false, Bool.and_true]
      simp; omega
  · simp only [hm, decide_False, Bool.and_false, if_false, Bool.false_eq_true]
    split_ifs <;> omega

theorem civilDays_prev_month (y m d : Int) (h1 : 1 ≤ m) (h2 : m ≤ 12) :
    civilDays y m d - 31 ≤ civilDays (norm y (m - 1 - 1) 12).1 ((norm y (m - 1 - 1) 12).2 + 1) d ∧
      civilDays (norm y (m - 1 - 1) 12).1 ((norm y (m - 1 - 1) 12).2 + 1) d ≤ civilDays y m d - 28 := by
  obtain ⟨t0, t1, t2, t3, t4, t5, t6, t7, t8, t9, t10, t11, t12⟩ := daysBefore_table
  have hs := daysSinceEpoch_succ (y - 1)
  rw [sub_add_cancel] at hs
  have hy : y + -1 = y - 1 := by omega
  unfold civilDays norm
  interval_cases m
  · norm_num [t0, t11, hy]
    rw [hs]
    split_ifs <;> omega
  all_goals
    norm_num [t0, t1, t2, t3, t4, t5, t6, t7, t8, t9, t10, t11, t12]
    omega

theorem norm_of_lt (hi lo base : Int) (h0 : 0 ≤ lo) (h1 : lo < base) :
    norm hi lo base = (hi, lo) := by
  unfold norm
  rw [Int.ediv_eq_zero_of_lt h0 h1, Int.emod_eq_of_lt h0 h1, add_zero]

theorem absClock_spec (abs : Int) :
    0 ≤ (absClock abs).1 ∧ (absClock abs).1 < 24 ∧ 0 ≤ (absClock abs).2.1 ∧
      (absClock abs).2.1 < 60 ∧ 0 ≤ (absClock abs).2.2 ∧ (absClock abs).2.2 < 60 ∧
      (absClock abs).1 * 3600 + (absClock abs).2.1 * 60 + (absClock abs).2.2 = abs % 86400 := by
  simp only [absClock]
  omega

theorem Date_nanos (y m d h mi s ns : Int) (loc : Location)
    (hh : 0 ≤ h ∧ h < 24) (hmi : 0 ≤ mi ∧ mi < 60) (hs : 0 ≤ s ∧ s < 60)
    (hns : 0 ≤ ns ∧ ns < 1000000000) :
    (GoTime.Date y m d h mi s ns loc).nanos =
      (civilDays (norm y (m - 1) 12).1 ((norm y (m - 1) 12).2 + 1) d * 86400
        + (h * 3600 + mi * 60 + s) - loc.offset) * 1000000000 + ns := by
  unfold GoTime.Date civilDays
  simp only [norm_of_lt s ns 1000000000 hns.1 hns.2, norm_of_lt mi s 60 hs.1 hs.2,
    norm_of_lt h mi 60 hmi.1 hmi.2, norm_of_lt d h 24 hh.1 hh.2, add_sub_cancel_right]
  split_ifs <;> ring

theorem Time.nanos_split (t : Time) :
    t.nanos = (civilDays t.Date.1 t.Date.2.1 t.Date.2.2 * 86400
      + (t.Clock.1 * 3600 + t.Clock.2.1 * 60 + t.Clock.2.2) - t.loc.offset) * 1000000000
      + t.nsec := by
  obtain ⟨_, _, _, hd⟩ := absDate_spec t.abs
  obtain ⟨_, _, _, _, _, _, hc⟩ := absClock_spec t.abs
  unfold Time.Date Time.Clock
  rw [hd]
  unfold Time.abs Time.nsec at *
  omega

theorem AddDate_nanos (t : Time) (a b c : Int) :
    (t.AddDate a b c).nanos = t.nanos +
      (civilDays (norm (t.Date.1 + a) (t.Date.2.1 + b - 1) 12).1
          ((norm (t.Date.1 + a) (t.Date.2.1 + b - 1) 12).2 + 1) (t.Date.2.2 + c)
        - civilDays t.Date.1 t.Date.2.1 t.Date.2.2) * 86400000000000 := by
  obtain ⟨c1, c2, c3, c4, c5, c6, _⟩ := absClock_spec t.abs
  have hn : 0 ≤ t.nsec ∧ t.nsec < 1000000000 := by unfold Time.nsec; omega
  have hsplit := Time.nanos_split t
  unfold Time.AddDate
  simp only
  unfold Time.Clock at hsplit ⊢
  rw [Date_nanos _ _ _ _ _ _ _ _ ⟨c1, c2⟩ ⟨c3, c4⟩ ⟨c5, c6⟩ hn]
  unfold Time.Location
  omega

theorem AddDate_days (t : Time) (c : Int) :
    (t.AddDate 0 0 c).nanos = t.nanos + c * 86400000000000 := by
  obtain ⟨h1, h2, _, _⟩ := absDate_spec t.abs
  rw [AddDate_nanos]
  have e : norm (t.Date.1 + 0) (t.Date.2.1 + 0 - 1) 12 = (t.Date.1, t.Date.2.1 - 1) := by
    rw [add_zero, add_zero]
    exact norm_of_lt _ _ _ (by unfold Time.Date; omega) (by unfold Time.Date; omega)
  rw [e]
  simp only [sub_add_cancel, civilDays_add_day]
  omega

theorem AddDate_month (t : Time) :
    t.nanos - 31 * 86400000000000 ≤ (t.AddDate 0 (-1) 0).nanos ∧
      (t.AddDate 0 (-1) 0).nanos ≤ t.nanos - 28 * 86400000000000 := by
  obtain ⟨h1, h2, _, _⟩ := absDate_spec t.abs
  have hm := civilDays_prev_month t.Date.1 t.Date.2.1 t.Date.2.2 h1 h2
  rw [AddDate_nanos]
  have e : t.Date.2.1 + -1 - 1 = t.Date.2.1 - 1 - 1 := by omega
  rw [add_zero, add_zero, e]
  omega

theorem AddDate_year (t : Time) :
    t.nanos - 366 * 86400000000000 ≤ (t.AddDate (-1) 0 0).nanos ∧
      (t.AddDate (-1) 0 0).nanos ≤ t.nanos - 365 * 86400000000000 := by
  obtain ⟨h1, h2, _, _⟩ := absDate_spec t.abs
  have hy := civilDays_prev_year t.Date.1 t.Date.2.1 t.Date.2.2 h1 h2
  rw [AddDate_nanos]
  have e : norm (t.Date.1 + -1) (t.Date.2.1 + 0 - 1) 12 = (t.Date.1 - 1, t.Date.2.1 - 1) := by
    rw [add_zero]
    have : t.Date.1 + -1 = t.Date.1 - 1 := by omega
    rw [this]
    exact norm_of_lt _ _ _ (by unfold Time.Date; omega) (by unfold Time.Date; omega)
  rw [e, add_zero]
  simp only [sub_add_cancel]
  omega

end GoTime

/-! ## The registries: reads, writes and the frame of each operation -/

namespace Reckoning

open GoTime

theorem mapGet_mapSet_self {β : Type} (m : List (String × β)) (k : String) (v : β) :
    mapGet (mapSet m k v) k = some v := by
  induction m with
  | nil => simp [mapSet, mapGet]
  | cons hd tl ih =>
    obtain ⟨k1, v1⟩ := hd
    by_cases h : k1 = k
    · simp [mapSet, mapGet, h]
    · simp [mapSet, mapGet, h, ih]

theorem mapGet_mapSet_ne {β : Type} (m : List (String × β)) (k j : String) (v : β)
    (h : j ≠ k) : mapGet (mapSet m k v) j = mapGet m j := by
  induction m with
  | nil =>
    have : ¬ k = j := fun e => h e.symm
    simp [mapSet, mapGet, this]
  | cons hd tl ih =>
    obtain ⟨k1, v1⟩ := hd
    by_cases h1 : k1 = k
    · have : ¬ k = j := fun e => h e.symm
      subst h1
      simp [mapSet, mapGet, this]
    · by_cases h2 : k1 = j
      · subst h2
        simp [mapSet, mapGet, h1]
      · simp [mapSet, mapGet, h1, h2, ih]

theorem mapGet_isSome_iff {β : Type} (m : List (String × β)) (k : String) :
    (∃ v, mapGet m k = some v) ↔ k ∈ mapKeys m := by
  induction m with
  | nil => simp [mapGet, mapKeys]
  | cons hd tl ih =>
    obtain ⟨k1, v1⟩ := hd
    by_cases h : k1 = k
    · simp [mapGet, mapKeys, h]
    · have hk : ¬ k = k1 := fun e => h e.symm
      simp only [mapGet, h, if_false, mapKeys, List.map_cons, List.mem_cons, hk, false_or]
      exact ih

theorem mapGet_eq_none_iff {β : Type} (m : List (String × β)) (k : String) :
    mapGet m k = none ↔ k ∉ mapKeys m := by
  rw [← mapGet_isSome_iff]
  cases mapGet m k <;> simp

theorem addActions_Name (t : Thing) (activities : List String) (clk : Clock) :
    (t.addActions activities clk).Name = t.Name := by
  unfold Thing.addActions
  induction activities generalizing t with
  | nil => rfl
  | cons a as ih => rw [List.foldl_cons, ih]

theorem addActions_cons (t : Thing) (a : String) (as : List String) (clk : Clock) :
    t.addActions (a :: as) clk =
      (Thing.mk t.Name (mapSet t.Activities a
        ((mapGet t.Activities a).getD [] ++ [(Now clk).FormatRFC3339]))).addActions as clk := by
  rfl

theorem addActions_getD (t : Thing) (activities : List String) (clk : Clock) (k : String) :
    (mapGet (t.addActions activities clk).Activities k).getD [] =
      (mapGet t.Activities k).getD [] ++
        List.replicate (activities.count k) (Now clk).FormatRFC3339 := by
  induction activities generalizing t with
  | nil => simp [Thing.addActions]
  | cons a as ih =>
    rw [addActions_cons, ih]
    by_cases h : a = k
    · subst h
      simp [mapGet_mapSet_self, List.replicate_succ]
    · have hk : k ≠ a := fun e => h e.symm
      simp [mapGet_mapSet_ne _ _ _ _ hk, List.count_cons, h]

theorem addActions_get_absent (t : Thing) (activities : List String) (clk : Clock) (k : String)
    (h : k ∉ activities) :
    mapGet (t.addActions activities clk).Activities k = mapGet t.Activities k := by
  induction activities generalizing t with
  | nil => rfl
  | cons a as ih =>
    rw [addActions_cons, ih _ (fun hm => h (List.mem_cons_of_mem _ hm))]
    exact mapGet_mapSet_ne _ _ _ _ (fun e => h (e ▸ List.mem_cons_self _ _))

theorem addActions_get_present (t : Thing) (activities : List String) (clk : Clock) (k : String)
    (h : k ∈ activities) :
    ∃ l, mapGet (t.addActions activities clk).Activities k = some l ∧ l ≠ [] := by
  induction activities generalizing t with
  | nil => cases h
  | cons a as ih =>
    rw [addActions_cons]
    by_cases hk : k ∈ as
    · exact ih _ hk
    · have hka : k = a := by
        rcases List.mem_cons.1 h with e | e
        · exact e
        · exact absurd e hk
      subst hka
      rw [addActions_get_absent _ _ _ _ hk, mapGet_mapSet_self]
      exact ⟨_, rfl, by simp⟩

theorem addActions_get_old (t : Thing) (activities : List String) (clk : Clock) (k : String)
    (l : List String) (h : mapGet t.Activities k = some l) (hl : l ≠ []) :
    ∃ l1, mapGet (t.addActions activities clk).Activities k = some l1 ∧ l1 ≠ [] := by
  by_cases hk : k ∈ activities
  · exact addActions_get_present t activities clk k hk
  · exact ⟨l, by rw [addActions_get_absent _ _ _ _ hk, h], hl⟩

end Reckoning

namespace Reckoning

open GoTime

theorem getStats_state (name : String) (s : State) : (getStats name s).2 = s := by
  unfold getStats
  cases mapGet s.memoStats name <;> rfl

theorem getStats_none (name : String) (s : State) (h : mapGet s.memoStats name = none) :
    (getStats name s).1 = (newStats name, false) := by
  unfold getStats
  rw [h]

theorem getStats_some (name : String) (s : State) (st : Stats)
    (h : mapGet s.memoStats name = some st) : (getStats name s).1 = (st, true) := by
  unfold getStats
  rw [h]

theorem getThing_Name (name : String) (s : State)
    (h : ∀ th, mapGet s.memoData name = some th → th.Name = name) :
    (getThing name s).1.1.Name = name := by
  unfold getThing
  cases hm : mapGet s.memoData name with
  | none => rfl
  | some th => exact h th hm

/-- The stats that `calcStats` builds from the stats `st` fetched at its start:
one write per activity kind of the thing. -/
theorem calcStats_memoStats (thing : Thing) (clk : Clock) (s : State) :
    (calcStats thing clk s).memoStats = mapSet s.memoStats thing.Name
      (thing.Activities.foldl (fun (stats : Stats) (kv : String × List String) =>
        Stats.mk stats.Name (mapSet stats.Activities kv.1 (countTimes kv.2 clk)))
        (getStats thing.Name s).1.1) := rfl

theorem calcStats_memoData (thing : Thing) (clk : Clock) (s : State) :
    (calcStats thing clk s).memoData = s.memoData := rfl

theorem foldStats_Name (acts : List (String × List String)) (clk : Clock) (st : Stats) :
    (acts.foldl (fun (stats : Stats) (kv : String × List String) =>
        Stats.mk stats.Name (mapSet stats.Activities kv.1 (countTimes kv.2 clk))) st).Name
      = st.Name := by
  induction acts generalizing st with
  | nil => rfl
  | cons a as ih => rw [List.foldl_cons, ih]

theorem foldStats_get_absent (acts : List (String × List String)) (clk : Clock) (st : Stats)
    (k : String) (h : k ∉ mapKeys acts) :
    mapGet (acts.foldl (fun (stats : Stats) (kv : String × List String) =>
        Stats.mk stats.Name (mapSet stats.Activities kv.1 (countTimes kv.2 clk))) st).Activities k
      = mapGet st.Activities k := by
  induction acts generalizing st with
  | nil => rfl
  | cons a as ih =>
    have h1 : k ≠ a.1 := fun e => h (by simp [mapKeys, e])
    have h2 : k ∉ mapKeys as := fun e => h (by
      simp only [mapKeys, List.map_cons, List.mem_cons]
      exact Or.inr e)
    rw [List.foldl_cons, ih _ h2]
    exact mapGet_mapSet_ne _ _ _ _ h1

theorem foldStats_get_present (acts : List (String × List String)) (clk : Clock) (st : Stats)
    (k : String) (h : k ∈ mapKeys acts) :
    ∃ v, mapGet (acts.foldl (fun (stats : Stats) (kv : String × List String) =>
        Stats.mk stats.Name (mapSet stats.Activities kv.1 (countTimes kv.2 clk))) st).Activities k
      = some v := by
  induction acts generalizing st with
  | nil => simp [mapKeys] at h
  | cons a as ih =>
    rw [List.foldl_cons]
    by_cases hk : k ∈ mapKeys as
    · exact ih _ hk
    · have hka : k = a.1 := by
        simp only [mapKeys, List.map_cons, List.mem_cons] at h
        rcases h with e | e
        · exact e
        · exact absurd e hk
      rw [foldStats_get_absent _ _ _ _ hk, hka]
      exact ⟨_, mapGet_mapSet_self _ _ _⟩

/-- The stats stored for the thing after `calcStats`. -/
theorem calcStats_get_self (thing : Thing) (clk : Clock) (s : State) :
    mapGet (calcStats thing clk s).memoStats thing.Name = some
      (thing.Activities.foldl (fun (stats : Stats) (kv : String × List String) =>
        Stats.mk stats.Name (mapSet stats.Activities kv.1 (countTimes kv.2 clk)))
        (getStats thing.Name s).1.1) := by
  rw [calcStats_memoStats, mapGet_mapSet_self]

theorem calcStats_get_other (thing : Thing) (clk : Clock) (s : State) (n : String)
    (h : n ≠ thing.Name) :
    mapGet (calcStats thing clk s).memoStats n = mapGet s.memoStats n := by
  rw [calcStats_memoStats, mapGet_mapSet_ne _ _ _ _ h]

theorem Now_nanos_ge (clk : Clock) : 62135596800000000000 ≤ (Now clk).nanos := by
  unfold Now unixToInternal
  simp only
  omega

theorem After_eq (t u : Time) : t.After u = decide (u.nanos < t.nanos) := rfl

theorem isToday_zero : isToday Time.zero = false := by decide

theorem isThisWeek_iff (t : Time) (clk : Clock) :
    isThisWeek t clk = true ↔ (Now clk).nanos - 7 * 86400000000000 < t.nanos := by
  unfold isThisWeek
  simp only [After_eq, decide_eq_true_eq, AddDate_days]
  omega

theorem isThisMonth_of_lt (t : Time) (clk : Clock)
    (h : (Now clk).nanos - 28 * 86400000000000 < t.nanos) : isThisMonth t clk = true := by
  have hm := AddDate_month (Now clk)
  unfold isThisMonth
  simp only [After_eq, decide_eq_true_eq]
  omega

theorem isThisMonth_of_le (t : Time) (clk : Clock)
    (h : t.nanos ≤ (Now clk).nanos - 31 * 86400000000000) : isThisMonth t clk = false := by
  have hm := AddDate_month (Now clk)
  unfold isThisMonth
  simp only [After_eq, decide_eq_false_iff_not]
  omega

theorem isThisYear_of_lt (t : Time) (clk : Clock)
    (h : (Now clk).nanos - 365 * 86400000000000 < t.nanos) : isThisYear t clk = true := by
  have hm := AddDate_year (Now clk)
  unfold isThisYear
  simp only [After_eq, decide_eq_true_eq]
  omega

theorem isThisYear_of_le (t : Time) (clk : Clock)
    (h : t.nanos ≤ (Now clk).nanos - 366 * 86400000000000) : isThisYear t clk = false := by
  have hm := AddDate_year (Now clk)
  unfold isThisYear
  simp only [After_eq, decide_eq_false_iff_not]
  omega

theorem isThisWeek_of_le (t : Time) (clk : Clock)
    (h : t.nanos ≤ (Now clk).nanos - 7 * 86400000000000) : isThisWeek t clk = false := by
  have := isThisWeek_iff t clk
  cases hw : isThisWeek t clk
  · rfl
  · have := this.1 hw; omega

theorem Parse_error (t : String) (h : (Parse t).2 = true) : (Parse t).1 = Time.zero := by
  unfold Parse at h ⊢
  cases hp : parseRFC3339 t.data with
  | none => rfl
  | some x => rw [hp] at h; cases h

/-- A timestamp that does not parse is classified as the zero time, which no
test accepts at a reading of the clock. -/
theorem countStep_error (clk : Clock) (acc : TimeStats) (t : String)
    (h : (Parse t).2 = true) : countStep clk acc t = acc := by
  have hn := Now_nanos_ge clk
  have hz : (Time.zero).nanos = 0 := rfl
  unfold countStep
  simp only [Parse_error t h, isToday_zero,
    isThisWeek_of_le Time.zero clk (by omega), isThisMonth_of_le Time.zero clk (by omega),
    isThisYear_of_le Time.zero clk (by omega)]
  rfl

theorem foldl_countStep_filter (clk : Clock) (times : List String) (acc : TimeStats) :
    times.foldl (countStep clk) acc =
      (times.filter (fun t => !(Parse t).2)).foldl (countStep clk) acc := by
  induction times generalizing acc with
  | nil => rfl
  | cons t ts ih =>
    cases hp : (Parse t).2
    · simp only [List.filter_cons, hp, Bool.not_false, if_true, List.foldl_cons]
      exact ih _
    · simp only [List.filter_cons, hp, Bool.not_true, List.foldl_cons,
        countStep_error clk acc t hp]
      exact ih _

theorem countTimes_filter (clk : Clock) (times : List String) :
    countTimes times clk = countTimes (times.filter (fun t => !(Parse t).2)) clk :=
  foldl_countStep_filter clk times _

end Reckoning

namespace Reckoning

open GoTime

theorem getThing_cases (name : String) (s : State) :
    (mapGet s.memoData name = none ∧ (getThing name s).1.1 = newThing name) ∨
      (∃ th, mapGet s.memoData name = some th ∧ (getThing name s).1.1 = th) := by
  unfold getThing
  cases hm : mapGet s.memoData name with
  | none => exact Or.inl ⟨rfl, rfl⟩
  | some th => exact Or.inr ⟨th, rfl, rfl⟩

theorem getStats_cases (name : String) (s : State) :
    (mapGet s.memoStats name = none ∧ (getStats name s).1.1 = newStats name) ∨
      (∃ st, mapGet s.memoStats name = some st ∧ (getStats name s).1.1 = st) := by
  unfold getStats
  cases hm : mapGet s.memoStats name with
  | none => exact Or.inl ⟨rfl, rfl⟩
  | some st => exact Or.inr ⟨st, rfl, rfl⟩

theorem ingest_memoData (name : String) (activities : List String) (clk : Clock) (s : State) :
    (ingest name activities clk s).memoData =
      mapSet s.memoData name ((getThing name s).1.1.addActions activities clk) := rfl

theorem ingest_memoStats (name : String) (activities : List String) (clk : Clock) (s : State) :
    (ingest name activities clk s).memoStats =
      (calcStats ((getThing name s).1.1.addActions activities clk) clk
        (State.mk (mapSet s.memoData name ((getThing name s).1.1.addActions activities clk))
          s.memoStats)).memoStats := rfl

theorem getStats_congr (name : String) (s u : State) (h : s.memoStats = u.memoStats) :
    (getStats name s).1 = (getStats name u).1 := by
  unfold getStats
  rw [h]
  cases mapGet u.memoStats name <;> rfl

theorem Inv_init : Inv State.init := by
  constructor
  · intro n th h; simp [State.init, mapGet] at h
  · intro n st h; simp [State.init, mapGet] at h

theorem Inv_ingest (name : String) (activities : List String) (clk : Clock) (s : State)
    (hs : Inv s) : Inv (ingest name activities clk s) := by
  obtain ⟨ha, hb⟩ := hs
  have hN0 : (getThing name s).1.1.Name = name :=
    getThing_Name name s (fun th h => (ha name th h).1)
  have hN : ((getThing name s).1.1.addActions activities clk).Name = name := by
    rw [addActions_Name, hN0]
  have hne : ∀ k l, mapGet ((getThing name s).1.1.addActions activities clk).Activities k
      = some l → l ≠ [] := by
    intro k l hk
    by_cases hmem : k ∈ activities
    · obtain ⟨l1, h1, h2⟩ := addActions_get_present (getThing name s).1.1 activities clk k hmem
      rw [h1] at hk
      cases hk
      exact h2
    · rw [addActions_get_absent _ _ _ _ hmem] at hk
      rcases getThing_cases name s with ⟨_, e⟩ | ⟨th, e1, e2⟩
      · rw [e] at hk; simp [newThing, mapGet] at hk
      · rw [e2] at hk
        exact (ha name th e1).2 k l hk
  constructor
  · intro n th h
    rw [ingest_memoData] at h
    by_cases hn : n = name
    · subst hn
      rw [mapGet_mapSet_self] at h
      cases h
      exact ⟨hN, hne⟩
    · rw [mapGet_mapSet_ne _ _ _ _ hn] at h
      exact ha n th h
  · intro n st h
    rw [ingest_memoStats] at h
    by_cases hn : n = name
    · subst hn
      have key := calcStats_get_self ((getThing n s).1.1.addActions activities clk) clk
        (State.mk (mapSet s.memoData n ((getThing n s).1.1.addActions activities clk))
          s.memoStats)
      rw [hN] at key
      rw [key] at h
      cases h
      refine ⟨?_, _, by rw [ingest_memoData, mapGet_mapSet_self], ?_⟩
      · rw [foldStats_Name]
        rcases getStats_cases n (State.mk (mapSet s.memoData n
          ((getThing n s).1.1.addActions activities clk)) s.memoStats) with ⟨_, e⟩ | ⟨st, e1, e2⟩
        · rw [e]; rfl
        · rw [e2]; exact (hb n st e1).1
      · intro k v hk
        by_cases hmem : k ∈ mapKeys ((getThing n s).1.1.addActions activities clk).Activities
        · exact (mapGet_isSome_iff _ _).2 hmem
        · rw [foldStats_get_absent _ _ _ _ hmem] at hk
          rcases getStats_cases n (State.mk (mapSet s.memoData n
            ((getThing n s).1.1.addActions activities clk)) s.memoStats) with ⟨_, e⟩ | ⟨st, e1, e2⟩
          · rw [e] at hk; simp [newStats, mapGet] at hk
          · rw [e2] at hk
            obtain ⟨_, th, hth, hkeys⟩ := hb n st e1
            obtain ⟨l, hl⟩ := hkeys k v hk
            have hl0 := (ha n th hth).2 k l hl
            rcases getThing_cases n s with ⟨e3, _⟩ | ⟨th1, e3, e4⟩
            · rw [hth] at e3; cases e3
            · rw [hth] at e3; cases e3
              rw [e4]
              obtain ⟨l1, h1, _⟩ := addActions_get_old th activities clk k l hl hl0
              exact ⟨l1, h1⟩
    · have hn1 : n ≠ ((getThing name s).1.1.addActions activities clk).Name := by
        rw [hN]; exact hn
      rw [calcStats_get_other _ _ _ _ hn1] at h
      obtain ⟨h1, th, h2, h3⟩ := hb n st h
      refine ⟨h1, th, ?_, h3⟩
      rw [ingest_memoData, mapGet_mapSet_ne _ _ _ _ hn]
      exact h2

theorem Inv_post (r : PostRequest) (clk : Clock) (s : State) (hs : Inv s) :
    Inv (thingPostHandler r clk s).2 := by
  unfold thingPostHandler
  split_ifs with hc
  · exact hs
  · cases hb : r.body with
    | none => exact hs
    | some j => exact Inv_ingest _ _ _ _ hs

theorem Inv_of_Reachable (s : State) (h : Reachable s) : Inv s := by
  induction h with
  | init => exact Inv_init
  | post s r clk _ ih => exact Inv_post r clk s ih

end Reckoning

namespace Reckoning

open GoTime

/-- The test `isToday` does not read the clock: it accepts every time that is
not exactly at 00:00:00 in its own location. -/
theorem isToday_iff (t : Time) :
    isToday t = true ↔ ¬ (t.abs % 86400 = 0 ∧ t.nsec = 0) := by
  obtain ⟨h1, h2, _, hd⟩ := absDate_spec t.abs
  have hn : norm t.Date.1 (t.Date.2.1 - 1) 12 = (t.Date.1, t.Date.2.1 - 1) :=
    norm_of_lt _ _ _ (by unfold Time.Date; omega) (by unfold Time.Date; omega)
  have hD := Date_nanos t.Date.1 t.Date.2.1 t.Date.2.2 0 0 0 0 t.Location
    ⟨by omega, by omega⟩ ⟨by omega, by omega⟩ ⟨by omega, by omega⟩ ⟨by omega, by omega⟩
  rw [hn] at hD
  simp only [sub_add_cancel] at hD
  unfold Time.Date at hD
  rw [hd] at hD
  unfold isToday
  simp only [After_eq, decide_eq_true_eq]
  unfold Time.Date
  rw [hD]
  unfold Time.Location Time.abs Time.nsec
  omega

end Reckoning

/-! ## Counters of a list of timestamps -/

namespace Reckoning

open GoTime

theorem getThing_state (name : String) (s : State) : (getThing name s).2 = s := by
  unfold getThing
  cases mapGet s.memoData name <;> rfl

theorem mem_mapSet {β : Type} (m : List (String × β)) (k : String) (v : β) (p : String × β)
    (h : p ∈ mapSet m k v) : p = (k, v) ∨ p ∈ m := by
  induction m with
  | nil =>
    simp only [mapSet, List.mem_singleton] at h
    exact Or.inl h
  | cons hd tl ih =>
    obtain ⟨k1, v1⟩ := hd
    by_cases h1 : k1 = k
    · simp only [mapSet, h1, if_true, List.mem_cons] at h
      rcases h with e | e
      · exact Or.inl e
      · exact Or.inr (List.mem_cons_of_mem _ e)
    · simp only [mapSet, h1, if_false, List.mem_cons] at h
      rcases h with e | e
      · exact Or.inr (e ▸ List.mem_cons_self _ _)
      · rcases ih e with e1 | e1
        · exact Or.inl e1
        · exact Or.inr (List.mem_cons_of_mem _ e1)

theorem mapKeys_mapSet_mem {β : Type} (m : List (String × β)) (k : String) (v : β) (j : String)
    (h : j ∈ mapKeys (mapSet m k v)) : j = k ∨ j ∈ mapKeys m := by
  simp only [mapKeys, List.mem_map] at h ⊢
  obtain ⟨p, hp, rfl⟩ := h
  rcases mem_mapSet m k v p hp with e | e
  · exact Or.inl (by rw [e])
  · exact Or.inr ⟨p, e, rfl⟩

theorem mapSet_nodup {β : Type} (m : List (String × β)) (k : String) (v : β)
    (h : (mapKeys m).Nodup) : (mapKeys (mapSet m k v)).Nodup := by
  induction m with
  | nil => simp [mapSet, mapKeys]
  | cons hd tl ih =>
    obtain ⟨k1, v1⟩ := hd
    simp only [mapKeys, List.map_cons, List.nodup_cons] at h
    by_cases h1 : k1 = k
    · subst h1
      simp only [mapSet, if_true, mapKeys, List.map_cons, List.nodup_cons]
      exact h
    · simp only [mapSet, h1, if_false, mapKeys, List.map_cons, List.nodup_cons]
      refine ⟨?_, ih h.2⟩
      intro hm
      rcases mapKeys_mapSet_mem tl k v k1 hm with e | e
      · exact h1 e
      · exact h.1 e

theorem addActions_nodup (t : Thing) (activities : List String) (clk : Clock)
    (h : (mapKeys t.Activities).Nodup) :
    (mapKeys (t.addActions activities clk).Activities).Nodup := by
  induction activities generalizing t with
  | nil => exact h
  | cons a as ih =>
    rw [addActions_cons]
    exact ih _ (mapSet_nodup _ _ _ h)

theorem foldStats_get_of_nodup (acts : List (String × List String)) (clk : Clock) (st : Stats)
    (k : String) (l : List String) (hnd : (mapKeys acts).Nodup) (hl : mapGet acts k = some l) :
    mapGet (acts.foldl (fun (stats : Stats) (kv : String × List String) =>
        Stats.mk stats.Name (mapSet stats.Activities kv.1 (countTimes kv.2 clk))) st).Activities k
      = some (countTimes l clk) := by
  induction acts generalizing st with
  | nil => simp [mapGet] at hl
  | cons a as ih =>
    obtain ⟨k1, l1⟩ := a
    simp only [mapKeys, List.map_cons, List.nodup_cons] at hnd
    rw [List.foldl_cons]
    by_cases h1 : k1 = k
    · subst h1
      simp only [mapGet, if_true] at hl
      cases hl
      rw [foldStats_get_absent _ _ _ _ hnd.1]
      exact mapGet_mapSet_self _ _ _
    · simp only [mapGet, h1, if_false] at hl
      exact ih _ hnd.2 hl

/-- The counters that `calcStats` stores for a kind of the thing are the
counters of the list of that kind. -/
theorem storedCounters_eq (thing : Thing) (clk : Clock) (s : State) (k : String)
    (l : List String) (hnd : (mapKeys thing.Activities).Nodup)
    (hl : mapGet thing.Activities k = some l) :
    storedCounters thing clk s k = some (countTimes l clk) := by
  unfold storedCounters
  rw [calcStats_get_self]
  exact foldStats_get_of_nodup _ _ _ _ _ hnd hl

theorem countStep_ge (clk : Clock) (acc : TimeStats) (t : String) :
    acc.Today ≤ (countStep clk acc t).Today ∧ acc.Week ≤ (countStep clk acc t).Week ∧
      acc.Month ≤ (countStep clk acc t).Month ∧ acc.Year ≤ (countStep clk acc t).Year := by
  unfold countStep
  simp only
  refine ⟨?_, ?_, ?_, ?_⟩ <;> split_ifs <;> omega

theorem foldl_countStep_ge (clk : Clock) (times : List String) (acc : TimeStats) :
    acc.Today ≤ (times.foldl (countStep clk) acc).Today ∧
      acc.Week ≤ (times.foldl (countStep clk) acc).Week ∧
      acc.Month ≤ (times.foldl (countStep clk) acc).Month ∧
      acc.Year ≤ (times.foldl (countStep clk) acc).Year := by
  induction times generalizing acc with
  | nil => exact ⟨le_refl _, le_refl _, le_refl _, le_refl _⟩
  | cons t ts ih =>
    obtain ⟨a1, a2, a3, a4⟩ := countStep_ge clk acc t
    obtain ⟨b1, b2, b3, b4⟩ := ih (countStep clk acc t)
    rw [List.foldl_cons]
    exact ⟨le_trans a1 b1, le_trans a2 b2, le_trans a3 b3, le_trans a4 b4⟩

theorem countTimes_append_ge (clk : Clock) (l r : List String) :
    (countTimes l clk).Today ≤ (countTimes (l ++ r) clk).Today ∧
      (countTimes l clk).Week ≤ (countTimes (l ++ r) clk).Week ∧
      (countTimes l clk).Month ≤ (countTimes (l ++ r) clk).Month ∧
      (countTimes l clk).Year ≤ (countTimes (l ++ r) clk).Year := by
  unfold countTimes
  rw [List.foldl_append]
  exact foldl_countStep_ge clk r _

theorem week_le_month_threshold (clk : Clock) :
    ((Now clk).AddDate 0 (-1) 0).nanos ≤ ((Now clk).AddDate 0 0 (-7)).nanos := by
  have h1 := AddDate_month (Now clk)
  rw [AddDate_days]
  omega

theorem month_le_year_threshold (clk : Clock) :
    ((Now clk).AddDate (-1) 0 0).nanos ≤ ((Now clk).AddDate 0 (-1) 0).nanos := by
  have h1 := AddDate_month (Now clk)
  have h2 := AddDate_year (Now clk)
  omega

theorem isThisMonth_of_isThisWeek (t : Time) (clk : Clock) (h : isThisWeek t clk = true) :
    isThisMonth t clk = true := by
  have hw := week_le_month_threshold clk
  unfold isThisWeek at h
  unfold isThisMonth
  simp only [After_eq, decide_eq_true_eq] at h ⊢
  omega

theorem isThisYear_of_isThisMonth (t : Time) (clk : Clock) (h : isThisMonth t clk = true) :
    isThisYear t clk = true := by
  have hw := month_le_year_threshold clk
  unfold isThisMonth at h
  unfold isThisYear
  simp only [After_eq, decide_eq_true_eq] at h ⊢
  omega

theorem foldl_countStep_ordered (clk : Clock) (times : List String) (acc : TimeStats) (n : Nat)
    (h : acc.Week ≤ acc.Month ∧ acc.Month ≤ acc.Year ∧ acc.Year ≤ n) :
    (times.foldl (countStep clk) acc).Week ≤ (times.foldl (countStep clk) acc).Month ∧
      (times.foldl (countStep clk) acc).Month ≤ (times.foldl (countStep clk) acc).Year ∧
      (times.foldl (countStep clk) acc).Year ≤ n + times.length := by
  induction times generalizing acc n with
  | nil => exact h
  | cons t ts ih =>
    rw [List.foldl_cons]
    have key : (countStep clk acc t).Week ≤ (countStep clk acc t).Month ∧
        (countStep clk acc t).Month ≤ (countStep clk acc t).Year ∧
        (countStep clk acc t).Year ≤ n + 1 := by
      obtain ⟨h1, h2, h3⟩ := h
      unfold countStep
      simp only
      cases hw : isThisWeek (Parse t).1 clk
      · cases hm : isThisMonth (Parse t).1 clk
        · cases hy : isThisYear (Parse t).1 clk <;> simp <;> omega
        · rw [isThisYear_of_isThisMonth _ _ hm]; simp; omega
      · rw [isThisMonth_of_isThisWeek _ _ hw,
          isThisYear_of_isThisMonth _ _ (isThisMonth_of_isThisWeek _ _ hw)]
        simp; omega
    have := ih (countStep clk acc t) (n + 1) key
    simp only [List.length_cons]
    omega

theorem atMidnight_iff (t : Time) :
    atMidnight t = true ↔ (t.abs % 86400 = 0 ∧ t.nsec = 0) := by
  unfold atMidnight Time.Clock absClock
  simp only [Bool.and_eq_true, beq_iff_eq]
  omega

theorem isToday_eq (ts : String) :
    isToday (Parse ts).1 = (!(Parse ts).2 && !atMidnight (Parse ts).1) := by
  cases he : (Parse ts).2
  · have h1 := isToday_iff (Parse ts).1
    have h2 := atMidnight_iff (Parse ts).1
    cases hm : atMidnight (Parse ts).1
    · have : ¬ ((Parse ts).1.abs % 86400 = 0 ∧ (Parse ts).1.nsec = 0) := by
        intro c; rw [h2.2 c] at hm; cases hm
      simpa using h1.2 this
    · have c := h2.1 hm
      cases hi : isToday (Parse ts).1
      · rfl
      · exact absurd c (h1.1 hi)
  · rw [Parse_error ts he, isToday_zero]; rfl

theorem foldl_countStep_Today (clk : Clock) (times : List String) (acc : TimeStats) :
    (times.foldl (countStep clk) acc).Today = acc.Today +
      (times.filter (fun ts => !(Parse ts).2 && !atMidnight (Parse ts).1)).length := by
  induction times generalizing acc with
  | nil => rfl
  | cons t ts ih =>
    rw [List.foldl_cons, ih]
    have hs : (countStep clk acc t).Today =
        if (!(Parse t).2 && !atMidnight (Parse t).1) = true then acc.Today + 1 else acc.Today := by
      unfold countStep
      simp only [isToday_eq]
    rw [hs, List.filter_cons]
    split_ifs
    · simp only [List.length_cons]; omega
    · rfl

theorem countTimes_Today (clk : Clock) (times : List String) :
    (countTimes times clk).Today =
      (times.filter (fun ts => !(Parse ts).2 && !atMidnight (Parse ts).1)).length := by
  unfold countTimes
  rw [foldl_countStep_Today]
  simp

theorem names_of_Reachable (s : State) (h : Reachable s) :
    (∀ p ∈ s.memoData, p.2.Name = p.1) ∧ (∀ p ∈ s.memoStats, p.2.Name = p.1) := by
  induction h with
  | init => exact ⟨fun p hp => (by cases hp), fun p hp => (by cases hp)⟩
  | post s r clk hs ih =>
    obtain ⟨ha, hb⟩ := Inv_of_Reachable s hs
    obtain ⟨i1, i2⟩ := ih
    unfold thingPostHandler
    split_ifs with hc
    · exact ⟨i1, i2⟩
    · cases hbody : r.body with
      | none => exact ⟨i1, i2⟩
      | some j =>
        simp only
        have hN0 : (getThing r.thing s).1.1.Name = r.thing :=
          getThing_Name r.thing s (fun th h => (ha r.thing th h).1)
        have hN : ((getThing r.thing s).1.1.addActions j.Activities clk).Name = r.thing := by
          rw [addActions_Name, hN0]
        constructor
        · intro p hp
          rw [ingest_memoData] at hp
          rcases mem_mapSet _ _ _ _ hp with e | e
          · rw [e]; exact hN
          · exact i1 p e
        · intro p hp
          rw [ingest_memoStats, calcStats_memoStats] at hp
          rcases mem_mapSet _ _ _ _ hp with e | e
          · rw [e]
            simp only
            rw [foldStats_Name]
            rcases getStats_cases ((getThing r.thing s).1.1.addActions j.Activities clk).Name
              (State.mk (mapSet s.memoData r.thing
                ((getThing r.thing s).1.1.addActions j.Activities clk)) s.memoStats)
              with ⟨_, e1⟩ | ⟨st, e1, e2⟩
            · rw [e1]; rfl
            · rw [e2]; exact (hb _ st e1).1
          · exact i2 p e

theorem addActions_get_some (t : Thing) (activities : List String) (clk : Clock) (k : String)
    (l : List String) (h : mapGet t.Activities k = some l) :
    mapGet (t.addActions activities clk).Activities k =
      some (l ++ List.replicate (activities.count k) (Now clk).FormatRFC3339) := by
  have hg := addActions_getD t activities clk k
  rw [h] at hg
  by_cases hk : k ∈ activities
  · obtain ⟨l1, h1, _⟩ := addActions_get_present t activities clk k hk
    rw [h1] at hg ⊢
    simp only [Option.getD_some] at hg
    rw [hg]
  · rw [addActions_get_absent t activities clk k hk, h] at hg ⊢
    simp only [Option.getD_some] at hg
    rw [← hg]

end Reckoning

namespace Osutils

theorem utf8ByteSize_eq_zero_iff (s : String) : s.utf8ByteSize = 0 ↔ s = "" := by
  obtain ⟨cs⟩ := s
  cases cs with
  | nil => simp [String.utf8ByteSize, String.utf8ByteSize.go]
  | cons c cs =>
    have hc := Char.utf8Size_pos c
    simp only [String.utf8ByteSize, String.utf8ByteSize.go]
    constructor
    · intro h; omega
    · intro h
      have hd := congrArg String.data h
      simp at hd

end Osutils

/-! ## Locations with transitions -/

namespace Reckoning

open GoTime

theorem lookup_fixed (o sec : Int) :
    (TzLocation.mk o []).lookup sec = (o, zoneAlpha, zoneOmega) := rfl

theorem Date_nanos_offset (y m d h mi s ns o : Int) :
    (GoTime.Date y m d h mi s ns ⟨o⟩).nanos =
      (GoTime.Date y m d h mi s ns UTC).nanos - o * 1000000000 := by
  unfold GoTime.Date UTC
  simp only
  ring

theorem DateIn_fixed (y m d h mi s ns o : Int) :
    (DateIn y m d h mi s ns ⟨o, []⟩).nanos = (GoTime.Date y m d h mi s ns ⟨o⟩).nanos := by
  rw [Date_nanos_offset]
  unfold DateIn
  simp only [lookup_fixed]
  split_ifs <;> rfl

theorem toTz_abs (t : Time) : t.toTz.abs = t.abs := rfl

theorem toTz_nsec (t : Time) : t.toTz.nsec = t.nsec := rfl

theorem isTodayIn_toTz (t : Time) : isTodayIn t.toTz = isToday t := by
  unfold isTodayIn isToday TzTime.After Time.After TzTime.Date Time.Date Time.Location
  simp only [toTz_abs]
  have h := DateIn_fixed (absDate t.abs).1 (absDate t.abs).2.1 (absDate t.abs).2.2 0 0 0 0
    t.loc.offset
  have e : t.toTz.loc = ⟨t.loc.offset, []⟩ := rfl
  have e2 : t.toTz.nanos = t.nanos := rfl
  have e3 : (⟨t.loc.offset⟩ : Location) = t.loc := rfl
  rw [e3] at h
  simp only [e, e2, h]

theorem AddDate_toTz (t : Time) (a b c : Int) :
    (t.toTz.AddDate a b c).nanos = (t.AddDate a b c).nanos := by
  unfold TzTime.AddDate Time.AddDate TzTime.Date Time.Date TzTime.Clock Time.Clock Time.Location
  simp only [toTz_abs, toTz_nsec]
  have e : t.toTz.loc = ⟨t.loc.offset, []⟩ := rfl
  have e3 : (⟨t.loc.offset⟩ : Location) = t.loc := rfl
  rw [e, DateIn_fixed, e3]

theorem NowIn_fixed (u : Nat) (o : Int) :
    NowIn u ⟨o, []⟩ = (Now ⟨u, ⟨o⟩⟩).toTz := rfl

theorem isThisWeekIn_fixed (t : Time) (u : Nat) (o : Int) :
    isThisWeekIn t.toTz u ⟨o, []⟩ = isThisWeek t ⟨u, ⟨o⟩⟩ := by
  unfold isThisWeekIn isThisWeek TzTime.After Time.After
  simp only [NowIn_fixed, AddDate_toTz]
  rfl

theorem isThisMonthIn_fixed (t : Time) (u : Nat) (o : Int) :
    isThisMonthIn t.toTz u ⟨o, []⟩ = isThisMonth t ⟨u, ⟨o⟩⟩ := by
  unfold isThisMonthIn isThisMonth TzTime.After Time.After
  simp only [NowIn_fixed, AddDate_toTz]
  rfl

theorem isThisYearIn_fixed (t : Time) (u : Nat) (o : Int) :
    isThisYearIn t.toTz u ⟨o, []⟩ = isThisYear t ⟨u, ⟨o⟩⟩ := by
  unfold isThisYearIn isThisYear TzTime.After Time.After
  simp only [NowIn_fixed, AddDate_toTz]
  rfl

theorem ParseIn_fixed (o : Int) (value : String) :
    ParseIn ⟨o, []⟩ value = ((Parse value).1.toTz, (Parse value).2) := by
  unfold ParseIn
  simp only [lookup_fixed]
  cases he : (Parse value).2
  · simp only [Bool.false_eq_true, if_false]
    split_ifs with h
    · have ho : o = (Parse value).1.loc.offset := h.2
      rw [ho]; rfl
    · rfl
  · simp only [if_true]
    rw [Parse_error value he]
    rfl

theorem atMidnightIn_toTz (t : Time) : atMidnightIn t.toTz = atMidnight t := rfl

theorem countStepIn_fixed (o : Int) (u : Nat) (acc : TimeStats) (t : String) :
    countStepIn ⟨o, []⟩ u acc t = countStep ⟨u, ⟨o⟩⟩ acc t := by
  unfold countStepIn countStep
  simp only [ParseIn_fixed, isTodayIn_toTz, isThisWeekIn_fixed, isThisMonthIn_fixed,
    isThisYearIn_fixed]

theorem countTimesIn_fixed (o : Int) (times : List String) (u : Nat) :
    countTimesIn ⟨o, []⟩ times u = countTimes times ⟨u, ⟨o⟩⟩ := by
  unfold countTimesIn countTimes
  have : countStepIn ⟨o, []⟩ u = countStep ⟨u, ⟨o⟩⟩ := by
    funext acc t
    exact countStepIn_fixed o u acc t
  rw [this]

theorem foldl_countStepIn_Today (l : TzLocation) (u1 u2 : Nat) (times : List String)
    (a b : TimeStats) (h : a.Today = b.Today) :
    (times.foldl (countStepIn l u1) a).Today = (times.foldl (countStepIn l u2) b).Today := by
  induction times generalizing a b with
  | nil => exact h
  | cons t ts ih =>
    rw [List.foldl_cons, List.foldl_cons]
    apply ih
    unfold countStepIn
    simp only [h]

end Reckoning

/-! ## The claims -/

namespace Reckoning

open GoTime

theorem post_memoStats_present (r : PostRequest) (clk : Clock) (s : State) (name : String)
    (h : mapGet s.memoStats name ≠ none) :
    mapGet (thingPostHandler r clk s).2.memoStats name ≠ none := by
  unfold thingPostHandler
  split_ifs with hc
  · exact h
  · cases hb : r.body with
    | none => exact h
    | some j =>
      simp only
      rw [ingest_memoStats, calcStats_memoStats]
      by_cases hn : name = ((getThing r.thing s).1.1.addActions j.Activities clk).Name
      · rw [hn, mapGet_mapSet_self]; simp
      · rw [mapGet_mapSet_ne _ _ _ _ hn]; exact h

/-- C1, at the input where the code departs from it: one `install` posted for
the new entity `mypackage` at 2015-06-15T00:00:00.5Z and recomputed at that same
instant is stored with Week = Month = Year = 1 and Today = 0. -/
theorem post_at_midnight_today_zero :
    (thingPostHandler ⟨"application/json", "mypackage", some ⟨["install"]⟩⟩
        ⟨1434326400500000000, UTC⟩ State.init).2 =
      { memoData := [("mypackage", ⟨"mypackage", [("install", ["2015-06-15T00:00:00Z"])]⟩)],
        memoStats := [("mypackage", ⟨"mypackage", [("install", ⟨0, 1, 1, 1⟩)]⟩)] } := by
  decide

/-- C2, at the input where the code departs from it: at the aggregation
instant 2015-06-15T12:00:00Z the timestamp 2014-01-01T12:00:00Z parses, lies
before midnight of the day that contains now, and is counted as Today. -/
theorem isToday_counts_another_day :
    (Parse "2014-01-01T12:00:00Z").2 = false ∧
      (Now ⟨1434369600000000000, UTC⟩).Date = (2015, 6, 15) ∧
      (Parse "2014-01-01T12:00:00Z").1.nanos <
        (GoTime.Date 2015 6 15 0 0 0 0 (Parse "2014-01-01T12:00:00Z").1.Location).nanos ∧
      (countTimes ["2014-01-01T12:00:00Z"] ⟨1434369600000000000, UTC⟩).Today = 1 := by
  decide

/-- C3: at every reading of the clock a stored string that does not parse
leaves the four counters as they are, and the counters of a list, as well as
the whole result of `calcStats`, are those of the list without its unparseable
strings. -/
theorem calcStats_ignores_unparseable (thing : Thing) (clk : Clock) (s : State) :
    (∀ (acc : TimeStats) (t : String), (Parse t).2 = true → countStep clk acc t = acc) ∧
    (∀ times : List String,
      countTimes times clk = countTimes (times.filter (fun t => !(Parse t).2)) clk) ∧
    calcStats thing clk s =
      calcStats ⟨thing.Name, thing.Activities.map
        (fun kv => (kv.1, kv.2.filter (fun t => !(Parse t).2)))⟩ clk s := by
  refine ⟨fun acc t h => countStep_error clk acc t h, fun times => countTimes_filter clk times, ?_⟩
  unfold calcStats
  simp only [List.foldl_map]
  congr 3
  funext stats kv
  rw [← countTimes_filter]

/-- C3 at an instance: the string `yesterday` does not parse and changes no
counter at 2015-06-15T12:00:00Z. -/
theorem calcStats_ignores_unparseable_witness :
    (Parse "yesterday").2 = true ∧
      countStep ⟨1434369600000000000, UTC⟩ ⟨3, 2, 1, 0⟩ "yesterday" = ⟨3, 2, 1, 0⟩ :=
  ⟨by decide,
    (calcStats_ignores_unparseable ⟨"a", []⟩ ⟨1434369600000000000, UTC⟩ State.init).1
      ⟨3, 2, 1, 0⟩ "yesterday" (by decide)⟩

/-- C4 as stated fails: at 2015-06-15T12:00:00Z the timestamp
2015-05-06T12:00:00Z, exactly 40 days earlier, increments Today and Year and
increments neither Week nor Month. -/
theorem forty_days_ago_not_this_month :
    (Parse "2015-05-06T12:00:00Z").1.nanos =
        (Now ⟨1434369600000000000, UTC⟩).nanos - 40 * 86400000000000 ∧
      countStep ⟨1434369600000000000, UTC⟩ ⟨0, 0, 0, 0⟩ "2015-05-06T12:00:00Z" =
        ⟨1, 0, 0, 1⟩ := by
  decide

/-- C4, amended: at every reading of the clock a timestamp recorded 40 days
before now (stored to the second, so its instant lies in the second that ends
40 days before now) increments the Year counter and increments neither the
Week counter nor the Month counter. -/
theorem forty_days_ago_year_only (clk : Clock) (acc : TimeStats) (ts : String)
    (h1 : (Now clk).nanos - 40 * 86400000000000 - 1000000000 < (Parse ts).1.nanos)
    (h2 : (Parse ts).1.nanos ≤ (Now clk).nanos - 40 * 86400000000000) :
    (countStep clk acc ts).Week = acc.Week ∧ (countStep clk acc ts).Month = acc.Month ∧
      (countStep clk acc ts).Year = acc.Year + 1 := by
  unfold countStep
  simp only [isThisWeek_of_le (Parse ts).1 clk (by omega),
    isThisMonth_of_le (Parse ts).1 clk (by omega),
    isThisYear_of_lt (Parse ts).1 clk (by omega)]
  simp

/-- C4 amended, at an instance: 2015-05-06T12:00:00Z at 2015-06-15T12:00:00Z. -/
theorem forty_days_ago_year_only_witness :
    (countStep ⟨1434369600000000000, UTC⟩ ⟨7, 5, 3, 1⟩ "2015-05-06T12:00:00Z").Week = 5 ∧
      (countStep ⟨1434369600000000000, UTC⟩ ⟨7, 5, 3, 1⟩ "2015-05-06T12:00:00Z").Month = 3 ∧
      (countStep ⟨1434369600000000000, UTC⟩ ⟨7, 5, 3, 1⟩ "2015-05-06T12:00:00Z").Year = 1 + 1 :=
  forty_days_ago_year_only ⟨1434369600000000000, UTC⟩ ⟨7, 5, 3, 1⟩ "2015-05-06T12:00:00Z"
    (by decide) (by decide)

end Reckoning

namespace Reckoning

open GoTime

/-- C5: `calcStats` leaves `memoData` as it is, leaves the stats of every
other name as they are, and in the stats of the name of the thing keeps the
entry of every activity kind that is not a key of the thing: the kind is
neither removed nor reset. -/
theorem calcStats_overwrites_only_kinds_of_thing (thing : Thing) (clk : Clock) (s : State) :
    (calcStats thing clk s).memoData = s.memoData ∧
    (∀ n, n ≠ thing.Name →
      mapGet (calcStats thing clk s).memoStats n = mapGet s.memoStats n) ∧
    (∀ st0, mapGet s.memoStats thing.Name = some st0 →
      ∃ st, mapGet (calcStats thing clk s).memoStats thing.Name = some st ∧
        st.Name = st0.Name ∧
        ∀ k, k ∉ mapKeys thing.Activities →
          mapGet st.Activities k = mapGet st0.Activities k) := by
  refine ⟨rfl, fun n hn => calcStats_get_other thing clk s n hn, ?_⟩
  intro st0 h0
  refine ⟨_, calcStats_get_self thing clk s, ?_, ?_⟩
  · rw [foldStats_Name, getStats_some _ _ _ h0]
  · intro k hk
    rw [foldStats_get_absent _ _ _ _ hk, getStats_some _ _ _ h0]

/-- C5 at an instance: recomputing the thing `a`, which has only the kind
`new`, keeps the kind `old` of the stats of `a` with its counters. -/
theorem calcStats_overwrites_only_kinds_of_thing_witness :
    ∃ st, mapGet (calcStats ⟨"a", [("new", [])]⟩ ⟨1434369600000000000, UTC⟩
        ⟨[], [("a", ⟨"a", [("old", ⟨1, 2, 3, 4⟩)]⟩)]⟩).memoStats "a" = some st ∧
      mapGet st.Activities "old" = some ⟨1, 2, 3, 4⟩ := by
  obtain ⟨st, h1, _, h3⟩ :=
    (calcStats_overwrites_only_kinds_of_thing ⟨"a", [("new", [])]⟩
      ⟨1434369600000000000, UTC⟩ ⟨[], [("a", ⟨"a", [("old", ⟨1, 2, 3, 4⟩)]⟩)]⟩).2.2
      ⟨"a", [("old", ⟨1, 2, 3, 4⟩)]⟩ (by decide)
  exact ⟨st, h1, by rw [h3 "old" (by decide)]; decide⟩

/-- C6: in every reachable state, an activity kind with an entry in the stats
stored for a name is a key of the thing stored for that name, and its list of
timestamps is not empty. -/
theorem stats_kinds_are_recorded (s : State) (hr : Reachable s) (name : String) (st : Stats)
    (hst : mapGet s.memoStats name = some st) (k : String) (v : TimeStats)
    (hk : mapGet st.Activities k = some v) :
    ∃ thing times, mapGet s.memoData name = some thing ∧
      mapGet thing.Activities k = some times ∧ times ≠ [] := by
  obtain ⟨ha, hb⟩ := Inv_of_Reachable s hr
  obtain ⟨_, th, hth, hkeys⟩ := hb name st hst
  obtain ⟨l, hl⟩ := hkeys k v hk
  exact ⟨th, l, hth, hl, (ha name th hth).2 k l hl⟩

/-- C6 at an instance: the state after one POST of `install` for `mypackage`. -/
theorem stats_kinds_are_recorded_witness :
    ∃ thing times,
      mapGet (thingPostHandler ⟨"application/json", "mypackage", some ⟨["install"]⟩⟩
        ⟨1434369600000000000, UTC⟩ State.init).2.memoData "mypackage" = some thing ∧
      mapGet thing.Activities "install" = some times ∧ times ≠ [] :=
  stats_kinds_are_recorded _ (Reachable.post _ _ _ Reachable.init) "mypackage"
    ⟨"mypackage", [("install", ⟨1, 1, 1, 1⟩)]⟩ (by decide) "install" ⟨1, 1, 1, 1⟩ (by decide)

/-- C7: `getStats` and the GET handler return the state they were given, with
both registries as they were, and asked again they return the same result;
neither reads the clock. -/
theorem getStats_reads_only (name : String) (s : State) :
    (getStats name s).2 = s ∧ (thingGetHandler name s).2 = s ∧
      (getStats name (getStats name s).2).1 = (getStats name s).1 ∧
      (thingGetHandler name (thingGetHandler name s).2).1 = (thingGetHandler name s).1 := by
  have h1 : (getStats name s).2 = s := getStats_state name s
  have h2 : (thingGetHandler name s).2 = s := by
    unfold thingGetHandler
    simp only
    split_ifs <;> exact h1
  refine ⟨h1, h2, ?_, ?_⟩
  · rw [h1]
  · rw [h2]

/-- C8: `getStats` answers `false` exactly when nothing is stored under the
name, and then returns new stats with that name and no activity; otherwise it
answers `true` with the stored stats. An entry of `memoStats`, once stored, is
there after every later request. -/
theorem getStats_found_iff_stored (name : String) (s : State) :
    ((getStats name s).1.2 = false ↔ mapGet s.memoStats name = none) ∧
    (mapGet s.memoStats name = none →
      (getStats name s).1.1 = { Name := name, Activities := [] }) ∧
    (∀ st, mapGet s.memoStats name = some st → (getStats name s).1 = (st, true)) ∧
    (∀ (r : PostRequest) (clk : Clock), mapGet s.memoStats name ≠ none →
      mapGet (thingPostHandler r clk s).2.memoStats name ≠ none) := by
  refine ⟨?_, ?_, fun st h => getStats_some name s st h,
    fun r clk h => post_memoStats_present r clk s name h⟩
  · cases hm : mapGet s.memoStats name with
    | none => simp [getStats_none name s hm]
    | some st => simp [getStats_some name s st hm]
  · intro h
    rw [getStats_none name s h]
    rfl

/-- C8 at an instance: nothing is stored under `nobody` at the start. -/
theorem getStats_found_iff_stored_witness :
    (getStats "nobody" State.init).1.1 = { Name := "nobody", Activities := [] } :=
  (getStats_found_iff_stored "nobody" State.init).2.1 (by decide)

/-- C9: in a reachable state, a POST with no activity for a name without a
record stores the empty thing of that name, after which `getStats` finds
stats of that name with no activity; for a name with a record it leaves the
record as it is. -/
theorem post_nothing (s : State) (hr : Reachable s) (name : String) (clk : Clock) :
    (mapGet s.memoData name = none →
      mapGet (thingPostHandler ⟨"application/json", name, some ⟨[]⟩⟩ clk s).2.memoData name
        = some { Name := name, Activities := [] } ∧
      (getStats name (thingPostHandler ⟨"application/json", name, some ⟨[]⟩⟩ clk s).2).1
        = ({ Name := name, Activities := [] }, true)) ∧
    (∀ th, mapGet s.memoData name = some th →
      mapGet (thingPostHandler ⟨"application/json", name, some ⟨[]⟩⟩ clk s).2.memoData name
        = some th) := by
  obtain ⟨ha, hb⟩ := Inv_of_Reachable s hr
  have hpost : (thingPostHandler ⟨"application/json", name, some ⟨[]⟩⟩ clk s).2
      = ingest name [] clk s := by
    unfold thingPostHandler
    simp
  rw [hpost]
  constructor
  · intro hnone
    have hT : (getThing name s).1.1 = newThing name := by
      unfold getThing; rw [hnone]
    have hSnone : mapGet s.memoStats name = none := by
      cases hm : mapGet s.memoStats name with
      | none => rfl
      | some st =>
        obtain ⟨_, th, hth, _⟩ := hb name st hm
        rw [hnone] at hth; cases hth
    constructor
    · rw [ingest_memoData, mapGet_mapSet_self, hT]
      rfl
    · apply getStats_some
      rw [ingest_memoStats, hT]
      have key := calcStats_get_self ((newThing name).addActions [] clk) clk
        (State.mk (mapSet s.memoData name ((newThing name).addActions [] clk)) s.memoStats)
      have hN : ((newThing name).addActions [] clk).Name = name := rfl
      rw [hN] at key
      have e := getStats_none name
        (State.mk (mapSet s.memoData name ((newThing name).addActions [] clk)) s.memoStats)
        hSnone
      rw [key, e]
      rfl
  · intro th hth
    have hT : (getThing name s).1.1 = th := by
      unfold getThing; rw [hth]
    rw [ingest_memoData, mapGet_mapSet_self, hT]
    rfl

/-- C9 at an instance: a POST with no activity for `mypackage` at the start. -/
theorem post_nothing_witness :
    mapGet (thingPostHandler ⟨"application/json", "mypackage", some ⟨[]⟩⟩
        ⟨1434369600000000000, UTC⟩ State.init).2.memoData "mypackage"
        = some { Name := "mypackage", Activities := [] } ∧
      (getStats "mypackage" (thingPostHandler ⟨"application/json", "mypackage", some ⟨[]⟩⟩
        ⟨1434369600000000000, UTC⟩ State.init).2).1
        = ({ Name := "mypackage", Activities := [] }, true) :=
  (post_nothing State.init Reachable.init "mypackage" ⟨1434369600000000000, UTC⟩).1 (by decide)

/-- C10: after `addActions` the list of every kind is the list before followed
by one copy of the formatted current instant for each occurrence of the kind
in the input; the entry of a kind that does not occur in the input is as
before; the name is as before. -/
theorem addActions_appends (t : Thing) (activities : List String) (clk : Clock) (k : String) :
    (mapGet (t.addActions activities clk).Activities k).getD [] =
        (mapGet t.Activities k).getD [] ++
          List.replicate (activities.count k) (Now clk).FormatRFC3339 ∧
      (k ∉ activities →
        mapGet (t.addActions activities clk).Activities k = mapGet t.Activities k) ∧
      (t.addActions activities clk).Name = t.Name :=
  ⟨addActions_getD t activities clk k, addActions_get_absent t activities clk k,
    addActions_Name t activities clk⟩

/-- C10 at an instance: `install` twice and `uninstall` once leave `upgrade`
as it was. -/
theorem addActions_appends_witness :
    mapGet ((Thing.mk "a" [("upgrade", ["2015-06-14T08:00:00Z"])]).addActions
        ["install", "uninstall", "install"] ⟨1434369600000000000, UTC⟩).Activities "upgrade"
      = mapGet (Thing.mk "a" [("upgrade", ["2015-06-14T08:00:00Z"])]).Activities "upgrade" :=
  (addActions_appends ⟨"a", [("upgrade", ["2015-06-14T08:00:00Z"])]⟩
    ["install", "uninstall", "install"] ⟨1434369600000000000, UTC⟩ "upgrade").2.1 (by decide)

end Reckoning

namespace Reckoning

open GoTime

/-- C11: at a fixed reading of the clock, appending further occurrences
(recorded at that reading) never lowers a counter. For every kind the four
counters of its list after `addActions` are at least those of its list before;
and for a kind of the thing these are the counters that `calcStats` stores
after and before the append. -/
theorem counters_grow_on_append (thing : Thing) (activities : List String) (clk : Clock)
    (k : String) :
    ((countTimes ((mapGet thing.Activities k).getD []) clk).Today ≤
        (countTimes ((mapGet (thing.addActions activities clk).Activities k).getD []) clk).Today ∧
      (countTimes ((mapGet thing.Activities k).getD []) clk).Week ≤
        (countTimes ((mapGet (thing.addActions activities clk).Activities k).getD []) clk).Week ∧
      (countTimes ((mapGet thing.Activities k).getD []) clk).Month ≤
        (countTimes ((mapGet (thing.addActions activities clk).Activities k).getD []) clk).Month ∧
      (countTimes ((mapGet thing.Activities k).getD []) clk).Year ≤
        (countTimes ((mapGet (thing.addActions activities clk).Activities k).getD []) clk).Year) ∧
    (∀ (s1 s2 : State) (l : List String), (mapKeys thing.Activities).Nodup →
      mapGet thing.Activities k = some l →
      ∃ v w, storedCounters thing clk s1 k = some v ∧
        storedCounters (thing.addActions activities clk) clk s2 k = some w ∧
        v.Today ≤ w.Today ∧ v.Week ≤ w.Week ∧ v.Month ≤ w.Month ∧ v.Year ≤ w.Year) := by
  constructor
  · rw [addActions_getD]
    exact countTimes_append_ge clk _ _
  · intro s1 s2 l hnd hl
    refine ⟨_, _, storedCounters_eq thing clk s1 k l hnd hl,
      storedCounters_eq (thing.addActions activities clk) clk s2 k _
        (addActions_nodup thing activities clk hnd)
        (addActions_get_some thing activities clk k l hl), ?_⟩
    exact countTimes_append_ge clk _ _

/-- C11 at an instance: `install` recorded the day before, then twice more at
2015-06-15T12:00:00Z. -/
theorem counters_grow_on_append_witness :
    ∃ v w,
      storedCounters ⟨"a", [("install", ["2015-06-14T08:00:00Z"])]⟩
        ⟨1434369600000000000, UTC⟩ State.init "install" = some v ∧
      storedCounters ((Thing.mk "a" [("install", ["2015-06-14T08:00:00Z"])]).addActions
        ["install", "install"] ⟨1434369600000000000, UTC⟩)
        ⟨1434369600000000000, UTC⟩ State.init "install" = some w ∧
      v.Today ≤ w.Today ∧ v.Week ≤ w.Week ∧ v.Month ≤ w.Month ∧ v.Year ≤ w.Year :=
  (counters_grow_on_append ⟨"a", [("install", ["2015-06-14T08:00:00Z"])]⟩
    ["install", "install"] ⟨1434369600000000000, UTC⟩ "install").2 State.init State.init
    ["2015-06-14T08:00:00Z"] (by decide) (by decide)

/-- C13: in every reachable state the stats and the thing stored under a key
carry that key as their name, and every pair of the listing that
`getAllStats` returns has the name of its stats as its key. -/
theorem names_match_keys (s : State) (hr : Reachable s) :
    (∀ k st, mapGet s.memoStats k = some st → st.Name = k) ∧
    (∀ k th, mapGet s.memoData k = some th → th.Name = k) ∧
    (∀ p ∈ (getAllStats s).1, p.2.Name = p.1) := by
  obtain ⟨ha, hb⟩ := Inv_of_Reachable s hr
  exact ⟨fun k st h => (hb k st h).1, fun k th h => (ha k th h).1,
    (names_of_Reachable s hr).2⟩

/-- C13 at an instance: the stats stored under `mypackage` after one POST. -/
theorem names_match_keys_witness :
    mapGet (thingPostHandler ⟨"application/json", "mypackage", some ⟨["install"]⟩⟩
        ⟨1434369600000000000, UTC⟩ State.init).2.memoStats "mypackage"
        = some ⟨"mypackage", [("install", ⟨1, 1, 1, 1⟩)]⟩ ∧
      (Stats.mk "mypackage" [("install", ⟨1, 1, 1, 1⟩)]).Name = "mypackage" :=
  ⟨by decide, (names_match_keys _ (Reachable.post State.init ⟨"application/json", "mypackage",
      some ⟨["install"]⟩⟩ ⟨1434369600000000000, UTC⟩ Reachable.init)).1
    "mypackage" ⟨"mypackage", [("install", ⟨1, 1, 1, 1⟩)]⟩ (by decide)⟩

/-- C14, where the code departs from it: the run of `thingPostHandler` on a
decoded request ends in the state the handler returns, and in the order of its
steps `calcStats` runs last, after `mu.Unlock()`, with the mutex not held. -/
theorem post_recomputes_after_unlock (name : String) (activities : List String)
    (clk : Clock) (s : State) :
    (runPost name activities clk s).1.s =
        (thingPostHandler ⟨"application/json", name, some ⟨activities⟩⟩ clk s).2 ∧
      (runPost name activities clk s).2 =
        [(Op.lock, false), (Op.getThing, true), (Op.deferCalcStats, true),
          (Op.addActions, true), (Op.storeThing, true), (Op.unlock, true),
          (Op.calcStats, false)] := by
  constructor
  · simp only [runPost, postOps, runOps, step, getThing_state]
    unfold thingPostHandler
    simp
    rfl
  · rfl

/-- C15, where the code departs from it: a POST with the JSON content type
whose body does not decode leaves the state as it is and is answered with
status 200 and an empty body. -/
theorem undecodable_post_answers_200 (name : String) (clk : Clock) (s : State) :
    thingPostHandler ⟨"application/json", name, none⟩ clk s =
      ({ status := 200, body := Body.empty }, s) := by
  unfold thingPostHandler
  simp

/-- C16: the window of the week lies in the window of the month, which lies
in the window of the year, so the counters that `calcStats` stores for a kind
of the thing satisfy Week ≤ Month ≤ Year ≤ number of timestamps of the kind. -/
theorem window_counters_ordered (thing : Thing) (clk : Clock) (s : State) (k : String)
    (times : List String) (hnd : (mapKeys thing.Activities).Nodup)
    (hl : mapGet thing.Activities k = some times) :
    ((Now clk).AddDate 0 (-1) 0).nanos ≤ ((Now clk).AddDate 0 0 (-7)).nanos ∧
      ((Now clk).AddDate (-1) 0 0).nanos ≤ ((Now clk).AddDate 0 (-1) 0).nanos ∧
      ∃ v, storedCounters thing clk s k = some v ∧
        v.Week ≤ v.Month ∧ v.Month ≤ v.Year ∧ v.Year ≤ times.length := by
  refine ⟨week_le_month_threshold clk, month_le_year_threshold clk, _,
    storedCounters_eq thing clk s k times hnd hl, ?_⟩
  have h := foldl_countStep_ordered clk times ⟨0, 0, 0, 0⟩ 0
    ⟨le_refl _, le_refl _, le_refl _⟩
  simp only [Nat.zero_add] at h
  exact h

/-- C16 at an instance: three timestamps of `install` at 2015-06-15T12:00:00Z. -/
theorem window_counters_ordered_witness :
    ∃ v, storedCounters ⟨"a", [("install",
        ["2015-06-14T08:00:00Z", "2015-05-20T08:00:00Z", "2014-08-01T08:00:00Z"])]⟩
        ⟨1434369600000000000, UTC⟩ State.init "install" = some v ∧
      v.Week ≤ v.Month ∧ v.Month ≤ v.Year ∧ v.Year ≤ 3 :=
  (window_counters_ordered ⟨"a", [("install",
      ["2015-06-14T08:00:00Z", "2015-05-20T08:00:00Z", "2014-08-01T08:00:00Z"])]⟩
    ⟨1434369600000000000, UTC⟩ State.init "install"
    ["2015-06-14T08:00:00Z", "2015-05-20T08:00:00Z", "2014-08-01T08:00:00Z"]
    (by decide) (by decide)).2.2

/-- C17 as stated fails where `time.Local` has transitions. With the
transitions of America/Havana in 2015 (to UTC-4 on March 8, back to UTC-5 on
November 1 at 05:00 UTC) the stored timestamp 2015-11-01T00:00:00-05:00 gets
the local location, `time.Date` resolves 00:00:00 of its day to the first
midnight of that day (04:00 UTC), and the timestamp, at the second midnight
(05:00 UTC), is counted as Today, although it parses and its time of day is
exactly 00:00:00. -/
theorem today_counts_second_midnight :
    (countTimesIn ⟨-18000, [(1425790800, -14400), (1446354000, -18000)]⟩
        ["2015-11-01T00:00:00-05:00"] 1446379200000000000).Today = 1 ∧
      (["2015-11-01T00:00:00-05:00"].filter (fun ts =>
        !(ParseIn ⟨-18000, [(1425790800, -14400), (1446354000, -18000)]⟩ ts).2 &&
        !atMidnightIn
          (ParseIn ⟨-18000, [(1425790800, -14400), (1446354000, -18000)]⟩ ts).1)).length
        = 0 := by
  decide

/-- C17, amended: whatever the local location, the Today counter of the inner
loop of `calcStats` is the same at any two readings of the clock; when the
local location has no transitions (offset `o` throughout) it is the number of
timestamps that parse and whose time of day, in their own location, is not
exactly 00:00:00, and the inner loop is the one of the fixed-offset model,
whose counters `calcStats` stores for a kind of the thing. -/
theorem today_ignores_now_amended (localLoc : TzLocation) (o : Int) (times : List String)
    (u1 u2 : Nat) :
    (countTimesIn localLoc times u1).Today = (countTimesIn localLoc times u2).Today ∧
    (countTimesIn ⟨o, []⟩ times u1).Today = (times.filter (fun ts =>
      !(ParseIn ⟨o, []⟩ ts).2 && !atMidnightIn (ParseIn ⟨o, []⟩ ts).1)).length ∧
    (∀ u : Nat, countTimesIn ⟨o, []⟩ times u = countTimes times ⟨u, ⟨o⟩⟩) ∧
    (∀ (u : Nat) (thing : Thing) (s : State) (k : String),
      (mapKeys thing.Activities).Nodup → mapGet thing.Activities k = some times →
      storedCounters thing ⟨u, ⟨o⟩⟩ s k = some (countTimesIn ⟨o, []⟩ times u)) := by
  refine ⟨foldl_countStepIn_Today localLoc u1 u2 times _ _ rfl, ?_,
    fun u => countTimesIn_fixed o times u, ?_⟩
  · rw [countTimesIn_fixed, countTimes_Today]
    congr 2
    funext ts
    rw [ParseIn_fixed, atMidnightIn_toTz]
  · intro u thing s k hnd hl
    rw [countTimesIn_fixed]
    exact storedCounters_eq thing ⟨u, ⟨o⟩⟩ s k times hnd hl

/-- C17 amended, at an instance: in the fixed zone UTC-5 the timestamp at
midnight is not counted and the one at 08:30 is, at 2015-11-01T12:00:00Z. -/
theorem today_ignores_now_amended_witness :
    storedCounters ⟨"a", [("install",
        ["2015-11-01T00:00:00-05:00", "2015-11-01T08:30:00-05:00"])]⟩
        ⟨1446379200000000000, ⟨-18000⟩⟩ State.init "install"
      = some (countTimesIn ⟨-18000, []⟩
        ["2015-11-01T00:00:00-05:00", "2015-11-01T08:30:00-05:00"] 1446379200000000000) ∧
    (countTimesIn ⟨-18000, []⟩
        ["2015-11-01T00:00:00-05:00", "2015-11-01T08:30:00-05:00"] 1446379200000000000).Today
      = 1 :=
  ⟨(today_ignores_now_amended ⟨-18000, []⟩ (-18000)
      ["2015-11-01T00:00:00-05:00", "2015-11-01T08:30:00-05:00"]
      1446379200000000000 0).2.2.2 1446379200000000000
      ⟨"a", [("install", ["2015-11-01T00:00:00-05:00", "2015-11-01T08:30:00-05:00"])]⟩
      State.init "install" (by decide) (by decide),
    by decide⟩

end Reckoning

namespace Osutils

/-- C12: `Getenv` returns the value of the variable when it is set to a
non-empty string, and the default when the variable is unset or set to the
empty string. -/
theorem Getenv_value_or_default (env : String → Option String) (envVar defaultVal : String) :
    (∀ v, env envVar = some v → v ≠ "" → Getenv env envVar defaultVal = v) ∧
    (env envVar = none → Getenv env envVar defaultVal = defaultVal) ∧
    (env envVar = some "" → Getenv env envVar defaultVal = defaultVal) := by
  refine ⟨?_, ?_, ?_⟩
  · intro v h hv
    unfold Getenv osGetenv
    rw [h]
    simp only [Option.getD_some]
    rw [if_neg (fun c => hv ((utf8ByteSize_eq_zero_iff v).1 c))]
  · intro h
    unfold Getenv osGetenv
    rw [h]
    rfl
  · intro h
    unfold Getenv osGetenv
    rw [h]
    rfl

/-- C12 at an instance, the environment of `TestGetenv`: `testEnvVar` is set
to `venkman`, `novelEnvVar` to the empty string. -/
theorem Getenv_value_or_default_witness :
    Getenv (fun k => if k = "testEnvVar" then some "venkman"
        else if k = "novelEnvVar" then some "" else none) "testEnvVar" "default" = "venkman" :=
  (Getenv_value_or_default (fun k => if k = "testEnvVar" then some "venkman"
      else if k = "novelEnvVar" then some "" else none) "testEnvVar" "default").1
    "venkman" (by decide) (by decide)

end Osutils
